import Mathlib

/-!
# DocRadar: scanner and validator

A shallow embedding of `scanner/validator.go`, `scanner/scanner.go` and `scanner/exporter.go`,
followed by theorems about `ValidateFile`, `Scan`, `ExportAsZip` and `Export`.

## Validator

* A byte is a natural number (real bytes are below 256); a file's content is a `List Nat`.
* The file handle of `os.Open` is modelled by `FileAccess`: the call can fail to open, fail to
  stat, fail on the first read, or give a readable content whose size is the content's length.
* Reads of a readable regular file return every requested byte that exists.
* The float64 test of `isValidCSV` is kept as a float64 test: `toFloat64` rounds a rational to
  the nearest float64.
* Reason strings are kept verbatim.

## Scanner

* Paths are strings; `path/filepath` is modelled for Unix separators (`filepathClean`,
  `filepathJoin`, `filepathDir`, `filepathBase`, `filepathExt`).
* The file system is a tree `FsNode`; `filepath.WalkDir` is modelled for an arbitrary walk
  function (`walkDir`, `walkEntries`, `WalkDir`), and `Scan` passes it `scanWalkFn`.
* The wall clock is a function from the index of a clock reading to a time in nanoseconds.
* The snapshots handed to `updateProgress` are collected in order.

## Exporter

* The outcomes of the file-system calls (`os.MkdirAll`, `os.Create`, `os.Stat`, `copyFile`, the
  calls inside `addFileToZip`) are given by the environment.
* `ExportAsZip` is sequential; the archive is the list of the entry names created.
* `Export` runs four workers; a schedule lists which worker takes the next step.
-/

set_option autoImplicit false

namespace DocRadar

/-! ## Byte-slice helpers (`bytes.HasPrefix`, `bytes.Contains`, `file.Read`) -/

/-- The bytes of an ASCII string literal, as `[]byte("...")` gives them. -/
def asciiBytes (s : String) : List Nat := s.data.map Char.toNat

/-- Go `bytes.HasPrefix(s, pre)`. -/
def bytesHasPrefix : List Nat → List Nat → Bool
  | _, [] => true
  | [], _ :: _ => false
  | a :: s, b :: pre => a == b && bytesHasPrefix s pre

/-- Go `bytes.Contains(b, sub)`: `sub` occurs in `b` at some offset. -/
def bytesContains : List Nat → List Nat → Bool
  | [], sub => bytesHasPrefix [] sub
  | a :: s, sub => bytesHasPrefix (a :: s) sub || bytesContains s sub

/-- Go `file.Read(buf)` on a regular file, with `buf := make([]byte, len)` and the file offset at
`pos`: the buffer after the call (bytes read, then the untouched zeroes) and the count `n`. -/
def readAt (content : List Nat) (pos len : Nat) : List Nat × Nat :=
  let got := (content.drop pos).take len
  (got ++ List.replicate (len - got.length) 0, got.length)

/-! ## Magic numbers -/

/-- The PDF signature `%PDF`. -/
def pdfMagic : List Nat := [0x25, 0x50, 0x44, 0x46]

/-- The zip local-file-header signature `PK\x03\x04`. -/
def zipMagic : List Nat := [0x50, 0x4B, 0x03, 0x04]

/-- The OLE2 compound-document signature. -/
def oleMagic : List Nat := [0xD0, 0xCF, 0x11, 0xE0, 0xA1, 0xB1, 0x1A, 0xE1]

/-! ## float64 arithmetic used by `isValidCSV` -/

/-- Round a rational to the nearest integer, ties to the even one. -/
def roundNearestEven (s : ℚ) : ℤ :=
  let f := ⌊s⌋
  let r := s - f
  if r < 1 / 2 then f
  else if 1 / 2 < r then f + 1
  else if f % 2 = 0 then f else f + 1

/-- The float64 nearest to a rational (round to nearest, ties to even, 53-bit significand; the
exponent range is not bounded, the values met here lie between 2^-12 and 2). -/
def toFloat64 (q : ℚ) : ℚ :=
  if q = 0 then 0
  else
    let a := |q|
    let ulp : ℚ := 2 ^ (Int.log 2 a - 52)
    (if q < 0 then -1 else 1) * (roundNearestEven (a / ulp) : ℚ) * ulp

/-- Go `float64(p) / float64(t)` for two `int` counts (both conversions are exact below 2^53;
the quotient is correctly rounded). For `t = 0` the Go value is NaN, which compares false with
everything; here the quotient is `0`, which compares false with `0.9` as well. -/
def float64Div (p t : Nat) : ℚ := toFloat64 ((p : ℚ) / (t : ℚ))

/-- The float64 constant `0.9`. -/
def float64Const09 : ℚ := toFloat64 (9 / 10)

/-! ## validator.go -/

/-- What `os.Open`, `file.Stat` and the first `file.Read` give for a path. -/
inductive FileAccess
  | openError (msg : String)
  | statError (msg : String)
  | headerReadError (size : Nat) (msg : String)
  | readable (content : List Nat)
deriving Repr

/-- Source `isValidCSV`. -/
def isValidCSV (content : List Nat) : Bool :=
  let printableCount := content.foldl (fun cnt b =>
    let cnt1 := if (b ≥ 32 ∧ b ≤ 126) ∨ b = 10 ∨ b = 13 ∨ b = 9 then cnt + 1 else cnt
    if b ≥ 0x80 then cnt1 + 1 else cnt1) 0
  let totalCount := content.length
  decide (float64Div printableCount totalCount > float64Const09)

/-- Source `validatePDF`; `file` is the readable content, `size` its length. -/
def validatePDF (file : List Nat) (header : List Nat) (size : Nat) : Bool × String :=
  if !bytesHasPrefix header pdfMagic then
    (false, "不是有效的PDF文件（文件头不匹配）")
  else if size < 10 then
    (false, "PDF文件太小")
  else
    let tailSize := if size < 1024 then size else 1024
    let tail := (readAt file (size - tailSize) tailSize).1
    if !bytesContains tail (asciiBytes "%%EOF") then
      (false, "PDF文件可能已损坏（缺少EOF标记）")
    else
      let content := (readAt file 0 (min size 4096)).1
      if !bytesContains content (asciiBytes "obj") then
        (false, "PDF文件结构异常")
      else
        (true, "")

/-- Source `validateOOXML`. -/
def validateOOXML (file : List Nat) (size : Nat) (fileType : String) : Bool × String :=
  let rd := readAt file 0 (min size 8192)
  let content := rd.1.take rd.2
  let contentTypes := asciiBytes "[Content_Types].xml"
  if !bytesContains content contentTypes && !bytesContains content (asciiBytes "PK") then
    (false, "Office文件结构异常")
  else if fileType = "word" &&
      (bytesContains content (asciiBytes "word/") ||
        bytesContains content (asciiBytes "document.xml")) then
    (true, "")
  else if fileType = "excel" &&
      (bytesContains content (asciiBytes "xl/") ||
        bytesContains content (asciiBytes "workbook.xml") ||
        bytesContains content (asciiBytes "sheet")) then
    (true, "")
  else if fileType = "ppt" &&
      (bytesContains content (asciiBytes "ppt/") ||
        bytesContains content (asciiBytes "presentation.xml") ||
        bytesContains content (asciiBytes "slide")) then
    (true, "")
  else if bytesContains content contentTypes then
    (true, "")
  else
    (false, "Office文件内容异常")

/-- Go `binary.LittleEndian.Uint16` of the two bytes at offsets `i` and `i + 1`. -/
def uint16LE (b : List Nat) (i : Nat) : Nat :=
  (b.getD i 0 + 256 * b.getD (i + 1) 0) % 65536

/-- Source `validateOLE2`. -/
def validateOLE2 (file : List Nat) (size : Nat) (_fileType : String) : Bool × String :=
  let rd := readAt file 0 512
  let header := rd.1
  if rd.2 < 512 then
    (false, "无法读取OLE2头部")
  else if !bytesHasPrefix header oleMagic then
    (false, "OLE2签名不匹配")
  else
    let sectorSize := uint16LE header 30
    if sectorSize ≠ 9 && sectorSize ≠ 12 then
      (false, "OLE2扇区大小异常")
    else if size < 1536 then
      (false, "OLE2文件太小")
    else
      (true, "")

/-- Source `validateOffice`. -/
def validateOffice (file : List Nat) (header : List Nat) (size : Nat) (fileType : String) :
    Bool × String :=
  if bytesHasPrefix header zipMagic then
    validateOOXML file size fileType
  else if bytesHasPrefix header oleMagic then
    validateOLE2 file size fileType
  else if fileType = "excel" &&
      (let rd := readAt file 0 (min size 4096)
       decide (rd.2 > 0) && isValidCSV (rd.1.take rd.2)) then
    (true, "")
  else
    (false, "不是有效的Office文件（文件头不匹配）")

/-- Source `ValidateFile`; the path is resolved to its `FileAccess` by the caller. -/
def ValidateFile (f : FileAccess) (fileType : String) : Bool × String :=
  match f with
  | .openError msg => (false, "无法打开文件: " ++ msg)
  | .statError msg => (false, "无法获取文件信息: " ++ msg)
  | .headerReadError size msg =>
    if size = 0 then (false, "文件为空") else (false, "无法读取文件头: " ++ msg)
  | .readable content =>
    let size := content.length
    if size = 0 then (false, "文件为空")
    else
      let rd := readAt content 0 8
      let header := rd.1
      if rd.2 < 4 then (false, "文件太小，无法验证")
      else if fileType = "pdf" then validatePDF content header size
      else if fileType = "word" ∨ fileType = "excel" ∨ fileType = "ppt" then
        validateOffice content header size fileType
      else (true, "")

/-! ## Specification-side definitions and sample inputs for the validator -/

/-- A 1536-byte file with the OLE2 signature and sector exponent 9. -/
def oleSample : List Nat :=
  oleMagic ++ (List.replicate 22 0 ++ ([9, 0] ++ List.replicate 1504 0))

/-- The markers of a declared category that `validateOOXML` looks for. -/
def categoryMarkers (fileType : String) : List (List Nat) :=
  if fileType = "word" then [asciiBytes "word/", asciiBytes "document.xml"]
  else if fileType = "excel" then
    [asciiBytes "xl/", asciiBytes "workbook.xml", asciiBytes "sheet"]
  else if fileType = "ppt" then
    [asciiBytes "ppt/", asciiBytes "presentation.xml", asciiBytes "slide"]
  else []

/-- A zip-signature sample with a second `PK` entry and no Office marker. -/
def zipNoMarkerSample : List Nat := zipMagic ++ (asciiBytes "EncryptedPackage" ++ zipMagic)

/-- A byte that the CSV heuristic counts: printable ASCII, tab, CR, LF, or 0x80 and above. -/
def isTextByte (b : Nat) : Bool :=
  (decide (32 ≤ b) && decide (b ≤ 126)) || b == 9 || b == 13 || b == 10 || decide (128 ≤ b)

/-! ## strings and path/filepath (Unix separators) -/

/-- Go `strings.HasPrefix` on the characters of two strings. -/
def charsHasPrefix : List Char → List Char → Bool
  | _, [] => true
  | [], _ :: _ => false
  | a :: s, b :: pre => a == b && charsHasPrefix s pre

/-- Occurrence of `sub` in `s` at some offset. -/
def charsContains : List Char → List Char → Bool
  | [], sub => charsHasPrefix [] sub
  | a :: s, sub => charsHasPrefix (a :: s) sub || charsContains s sub

/-- Go `strings.Contains(s, sub)`. -/
def stringsContains (s sub : String) : Bool := charsContains s.data sub.data

/-- Go `strings.ReplaceAll(s, "\\", "/")`: every backslash becomes a forward slash. -/
def normalizeSlashes (s : String) : String :=
  ⟨s.data.map (fun c => if c = Char.ofNat 92 then '/' else c)⟩

/-- Go `strings.ToLower`, on ASCII letters. (Go also folds non-ASCII letters; the only ones
that fold to an ASCII letter give `k` or `i`, which no key of the extension table contains.) -/
def stringsToLower (s : String) : String := ⟨s.data.map Char.toLower⟩

/-- Go `strings.EqualFold`, on ASCII letters. -/
def stringsEqualFold (a b : String) : Bool := stringsToLower a == stringsToLower b

/-- Go `os.IsPathSeparator` on Unix. -/
def isPathSeparator (c : Char) : Bool := c == '/'

/-- The scan of `filepath.Ext` from the end of the path: `rev` is the unread part, reversed;
`acc` is what has been read. -/
def extAux : List Char → List Char → List Char
  | [], _ => []
  | c :: rev, acc =>
    if isPathSeparator c then []
    else if c = '.' then '.' :: acc
    else extAux rev (c :: acc)

/-- Go `filepath.Ext`. -/
def filepathExt (path : String) : String := ⟨extAux path.data.reverse []⟩

/-- Go `filepath.Base` (Unix: no volume name). -/
def filepathBase (path : String) : String :=
  if path = "" then "."
  else
    let stripped := path.data.reverse.dropWhile isPathSeparator
    let base := (stripped.takeWhile (fun c => !isPathSeparator c)).reverse
    if base = [] then "/" else ⟨base⟩

/-- Split a path at its separators; `cur` is the element being read, reversed. -/
def splitPath : List Char → List Char → List (List Char)
  | [], cur => [cur.reverse]
  | c :: rest, cur =>
    if isPathSeparator c then cur.reverse :: splitPath rest [] else splitPath rest (c :: cur)

/-- One element of `filepath.Clean`: `out` holds the kept elements, last one first. -/
def cleanStep (rooted : Bool) (out : List (List Char)) (elem : List Char) : List (List Char) :=
  if elem = [] ∨ elem = ['.'] then out
  else if elem = ['.', '.'] then
    match out with
    | [] => if rooted then [] else [elem]
    | top :: rest => if top = ['.', '.'] then elem :: out else rest
  else elem :: out

/-- Join path elements with the separator. -/
def joinElems : List (List Char) → List Char
  | [] => []
  | [e] => e
  | e :: es => e ++ '/' :: joinElems es

/-- Go `filepath.Clean` (Unix): empty elements and `.` are dropped, `..` removes the element
before it, a rooted path keeps its leading separator, an empty result is `.`. -/
def filepathClean (path : String) : String :=
  if path = "" then "."
  else
    let rooted := path.data.head? == some '/'
    let body := joinElems ((splitPath path.data []).foldl (cleanStep rooted) []).reverse
    if rooted then ⟨'/' :: body⟩
    else if body = [] then "." else ⟨body⟩

/-- Go `filepath.Dir` (Unix): the path up to its last separator, cleaned. -/
def filepathDir (path : String) : String :=
  filepathClean ⟨(path.data.reverse.dropWhile (fun c => !isPathSeparator c)).reverse⟩

/-- Go `filepath.Join(dir, name)` (Unix). -/
def filepathJoin (dir name : String) : String :=
  if dir ≠ "" then filepathClean (dir ++ "/" ++ name)
  else if name ≠ "" then filepathClean name
  else ""

/-! ## scanner.go: data model -/

/-- Source `FileInfo` (`ModTime` is an abstract time stamp). -/
structure FileInfo where
  Path : String
  Name : String
  Size : Nat
  ModTime : Nat
  Extension : String
  FileType : String
  IsValid : Bool
  InvalidReason : String
deriving Repr, DecidableEq

/-- Source `ScanOptions`. -/
structure ScanOptions where
  RootPath : String
  IncludeTypes : List String
  ExcludePaths : List String
  ValidateFiles : Bool
deriving Repr

/-- Source `ScanResult`, without the wall-clock `ScanTime`. -/
structure ScanResult where
  Files : List FileInfo
  TotalCount : Nat
  ValidCount : Nat
  InvalidCount : Nat
deriving Repr, DecidableEq

/-- Source `ScanProgress`. -/
structure ScanProgress where
  CurrentPath : String
  ScannedDirs : Nat
  FoundFiles : Nat
  CurrentFile : String
  IsScanning : Bool
deriving Repr, DecidableEq

/-- Source `extensionMap`, as an association list in source order. -/
def extensionTable : List (String × String) :=
  [(".pdf", "pdf"),
   (".doc", "word"), (".docx", "word"), (".docm", "word"), (".dot", "word"), (".dotx", "word"),
   (".xls", "excel"), (".xlsx", "excel"), (".xlsm", "excel"), (".xlsb", "excel"),
   (".xlt", "excel"), (".xltx", "excel"), (".csv", "excel"),
   (".ppt", "ppt"), (".pptx", "ppt"), (".pptm", "ppt"), (".pot", "ppt"), (".potx", "ppt"),
   (".pps", "ppt"), (".ppsx", "ppt")]

/-- The map lookup `extensionMap[ext]`: `none` is the `!ok` case. -/
def extensionMap (ext : String) : Option String := extensionTable.lookup ext

/-- Source `defaultExcludePaths`. -/
def defaultExcludePaths : List String :=
  ["Library/Containers", "Library/Caches", "Library/Application Support",
   "node_modules", ".git", ".svn", "$RECYCLE.BIN", "System Volume Information"]

/-- Source `windowsSystemDirs`. -/
def windowsSystemDirs : List String :=
  ["Windows", "Program Files", "Program Files (x86)", "ProgramData"]

/-- The closure `shouldExclude` of `Scan`; `excludePaths` is the merged list
`append(defaultExcludePaths, options.ExcludePaths...)`. -/
def shouldExclude (excludePaths : List String) (path : String) (isDir : Bool) : Bool :=
  let normalizedPath := normalizeSlashes path
  if excludePaths.any (fun excludePath => stringsContains normalizedPath excludePath) then true
  else if isDir then
    let dirName := filepathBase path
    windowsSystemDirs.any (fun sysDir =>
      stringsEqualFold dirName sysDir && decide ((filepathDir path).utf8ByteSize ≤ 3))
  else false

/-! ## The file system seen by `filepath.WalkDir` -/

/-- What `d.Info()` returns for a file entry. -/
structure FileStat where
  size : Nat
  modTime : Nat
deriving Repr, DecidableEq

/-- A directory tree. A file carries its `d.Info()` result (`none`: the call fails) and what
opening it gives; a directory carries the error of `os.ReadDir` (`none`: it succeeds) and the
entries `os.ReadDir` returned, in its order. -/
inductive FsNode
  | file (name : String) (info : Option FileStat) (access : FileAccess)
  | dir (name : String) (readErr : Option String) (children : List FsNode)

/-- Go `d.Name()`. -/
def FsNode.name : FsNode → String
  | .file name _ _ => name
  | .dir name _ _ => name

/-- Go `d.IsDir()`. -/
def FsNode.isDir : FsNode → Bool
  | .file _ _ _ => false
  | .dir _ _ _ => true

/-- The errors a `fs.WalkDirFunc` can return. -/
inductive WalkErr
  | skipDir
  | skipAll
  | other (msg : String)
deriving Repr, DecidableEq

/-- The three ways `filepath.WalkDir` calls its function: `fn(path, d, nil)`,
`fn(path, d, err)` after `os.ReadDir` failed, and `fn(root, nil, err)` after `os.Lstat` failed
on the root. -/
inductive Visit
  | entry (d : FsNode)
  | readDirErr (d : FsNode) (err : String)
  | lstatErr (err : String)

mutual
/-- Go `filepath.walkDir`. -/
def walkDir {σ : Type} (fn : σ → String → Visit → σ × Option WalkErr) (path : String) :
    FsNode → σ → σ × Option WalkErr
  | .file name info access, st =>
    fn st path (.entry (.file name info access))
  | .dir name readErr children, st =>
    match fn st path (.entry (.dir name readErr children)) with
    | (st1, some e) => if e = .skipDir then (st1, none) else (st1, some e)
    | (st1, none) =>
      match readErr with
      | none => walkEntries fn path children st1
      | some err =>
        match fn st1 path (.readDirErr (.dir name readErr children) err) with
        | (st2, some e) => if e = .skipDir then (st2, none) else (st2, some e)
        | (st2, none) => walkEntries fn path children st2
/-- The loop of `walkDir` over the entries of a directory. -/
def walkEntries {σ : Type} (fn : σ → String → Visit → σ × Option WalkErr) (path : String) :
    List FsNode → σ → σ × Option WalkErr
  | [], st => (st, none)
  | d1 :: rest, st =>
    match walkDir fn (filepathJoin path d1.name) d1 st with
    | (st1, some e) => if e = .skipDir then (st1, none) else (st1, some e)
    | (st1, none) => walkEntries fn path rest st1
end

/-- Go `filepath.WalkDir`; `root` is what `os.Lstat(root)` finds. -/
def WalkDir {σ : Type} (fn : σ → String → Visit → σ × Option WalkErr) (rootPath : String)
    (root : Except String FsNode) (st : σ) : σ × Option WalkErr :=
  let r := match root with
    | .error err => fn st rootPath (.lstatErr err)
    | .ok d => walkDir fn rootPath d st
  if r.2 = some .skipDir ∨ r.2 = some .skipAll then (r.1, none) else r

/-! ## scanner.go: `Scan` -/

/-- The variables of `Scan` that the walk function updates, the number of clock readings made
so far, and the snapshots handed to `updateProgress`, oldest first. -/
structure WalkState where
  files : List FileInfo
  scannedDirs : Nat
  foundFiles : Nat
  lastUpdateTime : Int
  clockReads : Nat
  emitted : List ScanProgress
deriving Repr

/-- The throttle interval `100*time.Millisecond`, in nanoseconds. -/
def throttleInterval : Int := 100000000

/-- The block `if time.Since(lastUpdateTime) > 100*time.Millisecond { s.updateProgress(p);
lastUpdateTime = time.Now() }`. `clock k` is the time of the `k`-th clock reading. -/
def throttledUpdate (clock : Nat → Int) (st : WalkState) (p : ScanProgress) : WalkState :=
  if clock st.clockReads - st.lastUpdateTime > throttleInterval then
    { st with
      emitted := st.emitted ++ [p]
      lastUpdateTime := clock (st.clockReads + 1)
      clockReads := st.clockReads + 2 }
  else
    { st with clockReads := st.clockReads + 1 }

/-- Lines 230-272 of the walk function, for a file entry that is not excluded: the `FileInfo`
that is appended, or `none` where the function returns without appending (unknown extension,
type not included, `d.Info()` failed). -/
def classifyFile (options : ScanOptions) (path : String) (name : String)
    (info : Option FileStat) (access : FileAccess) : Option FileInfo :=
  let ext := stringsToLower (filepathExt path)
  match extensionMap ext with
  | none => none
  | some fileType =>
    if options.IncludeTypes.length > 0 ∧ ¬ options.IncludeTypes.any (fun t => t == fileType) then
      none
    else
      match info with
      | none => none
      | some info =>
        let fileInfo : FileInfo :=
          { Path := path, Name := name, Size := info.size, ModTime := info.modTime,
            Extension := ext, FileType := fileType, IsValid := true, InvalidReason := "" }
        if options.ValidateFiles then
          let r := ValidateFile access fileType
          some { fileInfo with IsValid := r.1, InvalidReason := r.2 }
        else some fileInfo

/-- The function literal that `Scan` passes to `filepath.WalkDir`. -/
def scanWalkFn (clock : Nat → Int) (options : ScanOptions) (excludePaths : List String)
    (st : WalkState) (path : String) : Visit → WalkState × Option WalkErr
  | .lstatErr _ => (st, none)
  | .readDirErr d _ => if d.isDir then (st, some .skipDir) else (st, none)
  | .entry d =>
    if shouldExclude excludePaths path d.isDir then
      if d.isDir then (st, some .skipDir) else (st, none)
    else
      match d with
      | .dir _ _ _ =>
        let st1 := { st with scannedDirs := st.scannedDirs + 1 }
        (throttledUpdate clock st1
          { CurrentPath := path, ScannedDirs := st1.scannedDirs, FoundFiles := st1.foundFiles,
            CurrentFile := "", IsScanning := true }, none)
      | .file name info access =>
        match classifyFile options path name info access with
        | none => (st, none)
        | some fileInfo =>
          let st1 := { st with files := st.files ++ [fileInfo], foundFiles := st.foundFiles + 1 }
          (throttledUpdate clock st1
            { CurrentPath := filepathDir path, ScannedDirs := st1.scannedDirs,
              FoundFiles := st1.foundFiles, CurrentFile := name, IsScanning := true }, none)

/-- The counting loop at the end of `Scan`: `(validCount, invalidCount)`. -/
def countValid (files : List FileInfo) : Nat × Nat :=
  files.foldl (fun c f => if f.IsValid then (c.1 + 1, c.2) else (c.1, c.2 + 1)) (0, 0)

/-- What `Scan` returns (`result = none` is the nil `*ScanResult`) and the snapshots it passed
to `updateProgress`. -/
structure ScanOutcome where
  result : Option ScanResult
  err : Option WalkErr
  progress : List ScanProgress
deriving Repr

/-- Source `Scanner.Scan`. `root` is what `os.Lstat(options.RootPath)` finds; readings 0 and 1
of the clock are `startTime` and the first `lastUpdateTime`. -/
def Scan (clock : Nat → Int) (options : ScanOptions) (root : Except String FsNode) :
    ScanOutcome :=
  let st0 : WalkState :=
    { files := [], scannedDirs := 0, foundFiles := 0, lastUpdateTime := clock 1, clockReads := 2,
      emitted := [{ CurrentPath := options.RootPath, ScannedDirs := 0, FoundFiles := 0,
                    CurrentFile := "", IsScanning := true }] }
  let excludePaths := defaultExcludePaths ++ options.ExcludePaths
  let r := WalkDir (scanWalkFn clock options excludePaths) options.RootPath root st0
  let st := r.1
  let progress := st.emitted ++
    [{ CurrentPath := options.RootPath, ScannedDirs := st.scannedDirs,
       FoundFiles := st.foundFiles, CurrentFile := "", IsScanning := false }]
  match r.2 with
  | some e => { result := none, err := some e, progress := progress }
  | none =>
    let c := countValid st.files
    { result := some { Files := st.files, TotalCount := st.files.length,
                       ValidCount := c.1, InvalidCount := c.2 },
      err := none, progress := progress }

/-! ## Specification-side definitions and sample inputs for the scanner -/

mutual
/-- The `FileInfo`s that the walk of a node appends, as a function of the tree alone. -/
def collectNode (options : ScanOptions) (excludePaths : List String) (path : String) :
    FsNode → List FileInfo
  | .file name info access =>
    if shouldExclude excludePaths path false then []
    else (classifyFile options path name info access).toList
  | .dir _ readErr children =>
    if shouldExclude excludePaths path true then []
    else
      match readErr with
      | none => collectEntries options excludePaths path children
      | some _ => []
/-- The `FileInfo`s that the walk of a directory's entries appends. -/
def collectEntries (options : ScanOptions) (excludePaths : List String) (path : String) :
    List FsNode → List FileInfo
  | [] => []
  | d1 :: rest =>
    collectNode options excludePaths (filepathJoin path d1.name) d1 ++
      collectEntries options excludePaths path rest
end

mutual
/-- Every directory of the tree can be read and every file entry gives its `Info`. -/
def accessibleNode : FsNode → Bool
  | .file _ info _ => info.isSome
  | .dir _ readErr children => readErr.isNone && accessibleEntries children
/-- `accessibleNode` for each entry of a list. -/
def accessibleEntries : List FsNode → Bool
  | [] => true
  | d1 :: rest => accessibleNode d1 && accessibleEntries rest
end

mutual
/-- No path of the tree rooted at `path` is excluded by `shouldExclude`. -/
def noneExcludedNode (excludePaths : List String) (path : String) : FsNode → Bool
  | .file _ _ _ => !shouldExclude excludePaths path false
  | .dir _ _ children =>
    !shouldExclude excludePaths path true && noneExcludedEntries excludePaths path children
/-- `noneExcludedNode` for each entry of the directory at `path`. -/
def noneExcludedEntries (excludePaths : List String) (path : String) : List FsNode → Bool
  | [] => true
  | d1 :: rest =>
    noneExcludedNode excludePaths (filepathJoin path d1.name) d1 &&
      noneExcludedEntries excludePaths path rest
end

mutual
/-- The number of files of the tree whose lowercased extension is a key of the table. -/
def recognisedNode (path : String) : FsNode → Nat
  | .file _ _ _ => if (extensionMap (stringsToLower (filepathExt path))).isSome then 1 else 0
  | .dir _ _ children => recognisedEntries path children
/-- `recognisedNode` summed over the entries of the directory at `path`. -/
def recognisedEntries (path : String) : List FsNode → Nat
  | [] => 0
  | d1 :: rest => recognisedNode (filepathJoin path d1.name) d1 + recognisedEntries path rest
end

/-- `Reaches ex p n q`: a file with path `q` lies in the tree `n` rooted at path `p`, and no
directory on the way from `n` down to it is excluded by `shouldExclude`. -/
inductive Reaches (excludePaths : List String) : String → FsNode → String → Prop
  | file (path name : String) (info : Option FileStat) (access : FileAccess) :
      Reaches excludePaths path (.file name info access) path
  | dir (path name : String) (readErr : Option String) (children : List FsNode)
      (d1 : FsNode) (q : String) :
      shouldExclude excludePaths path true = false → d1 ∈ children →
      Reaches excludePaths (filepathJoin path d1.name) d1 q →
      Reaches excludePaths path (.dir name readErr children) q

/-- The tree of the end-to-end scenario: a valid PDF, an empty PDF, a zip with
`[Content_Types].xml`, and a text file. -/
def scenarioTree : FsNode :=
  .dir "docs" none
    [.file "a.pdf" (some ⟨22, 0⟩) (.readable (asciiBytes "%PDF-1.4 1 0 obj %%EOF")),
     .file "b.pdf" (some ⟨0, 0⟩) (.readable []),
     .file "c.docx" (some ⟨23, 0⟩) (.readable (zipMagic ++ asciiBytes "[Content_Types].xml")),
     .file "d.txt" (some ⟨5, 0⟩) (.readable (asciiBytes "hello"))]

/-- The options of the end-to-end scenario. -/
def scenarioOptions : ScanOptions :=
  { RootPath := "/data/docs", IncludeTypes := [], ExcludePaths := [], ValidateFiles := true }

/-- A tree with a version-control directory that holds a document. -/
def prunedTree : FsNode :=
  .dir "proj" none
    [.dir ".git" none [.file "x.pdf" (some ⟨4, 0⟩) (.readable (asciiBytes "%PDF"))],
     .file "r.pdf" (some ⟨4, 0⟩) (.readable (asciiBytes "%PDF"))]

/-- Options for scanning `prunedTree` without validation. -/
def prunedOptions : ScanOptions :=
  { RootPath := "/w/proj", IncludeTypes := ["pdf"], ExcludePaths := ["tmp"],
    ValidateFiles := false }

/-- The only `FileInfo` that the scan of `prunedTree` reports. -/
def prunedFile : FileInfo :=
  { Path := "/w/proj/r.pdf", Name := "r.pdf", Size := 4, ModTime := 0, Extension := ".pdf",
    FileType := "pdf", IsValid := true, InvalidReason := "" }

/-- The result of scanning `prunedTree`. -/
def prunedResult : ScanResult :=
  { Files := [prunedFile], TotalCount := 1, ValidCount := 1, InvalidCount := 0 }

/-- A user directory named `Windows` that holds a document, below a directory `ab`. -/
def userWindowsTree : FsNode :=
  .dir "ab" none
    [.dir "Windows" none [.file "report.pdf" (some ⟨4, 0⟩) (.readable (asciiBytes "%PDF"))]]

/-- Scan options with the given root and no filter. -/
def plainOptions (rootPath : String) : ScanOptions :=
  { RootPath := rootPath, IncludeTypes := [], ExcludePaths := [], ValidateFiles := false }

/-- The order on snapshots: neither counter decreases. -/
def ScanProgress.le (a b : ScanProgress) : Prop :=
  a.ScannedDirs ≤ b.ScannedDirs ∧ a.FoundFiles ≤ b.FoundFiles

/-- The invariant of the walk: `foundFiles` counts the appended files, the first snapshot is
`p0`, and every snapshot handed over so far has `IsScanning = true`, counters below the current
ones, and counters above those of the snapshots before it. -/
def ProgressInv (p0 : ScanProgress) (st : WalkState) : Prop :=
  st.foundFiles = st.files.length ∧
    (∃ mid, st.emitted = p0 :: mid) ∧
    (∀ p ∈ st.emitted,
      p.IsScanning = true ∧ p.ScannedDirs ≤ st.scannedDirs ∧ p.FoundFiles ≤ st.foundFiles) ∧
    st.emitted.Pairwise ScanProgress.le

/-! ## exporter.go: data model and helpers -/

/-- Source `ExportOptions`. -/
structure ExportOptions where
  DestPath : String
  Files : List FileInfo
  KeepStructure : Bool
  Overwrite : Bool
deriving Repr

/-- Source `ExportProgress`; `Percent` is the float64 value as a rational. -/
structure ExportProgress where
  Total : Nat
  Completed : Nat
  Failed : Nat
  Current : String
  Percent : ℚ
deriving Repr, DecidableEq

/-- Source `ExportResult`. -/
structure ExportResult where
  Success : Nat
  Failed : Nat
  FailedFiles : List String
  SkippedFiles : List String
deriving Repr, DecidableEq

/-- The zero value of `ExportProgress`, which `NewExporter` leaves in the exporter. -/
def zeroProgress : ExportProgress :=
  { Total := 0, Completed := 0, Failed := 0, Current := "", Percent := 0 }

/-- The Go expression `float64(n) / float64(total) * 100`. -/
def percentOf (n total : Nat) : ℚ := toFloat64 (float64Div n total * 100)

/-- What `GetDrives` asks of the system: whether `os.Stat` succeeds on a path, and the home
directory (`none`: `os.UserHomeDir` fails). -/
structure DriveEnv where
  statOk : String → Bool
  homeDir : Option String

/-- Source `GetDrives` (scanner.go). -/
def GetDrives (env : DriveEnv) : List String :=
  let unixRoots :=
    if env.statOk "/" then
      (match env.homeDir with
        | some homeDir => [homeDir]
        | none => []) ++ ["/"]
    else []
  unixRoots ++ ("CDEFGHIJKLMNOPQRSTUVWXYZ".data.filterMap (fun drive =>
    let drivePath : String := ⟨[drive, ':', Char.ofNat 92]⟩
    if env.statOk drivePath then some drivePath else none))

/-- Go `strings.TrimPrefix`. -/
def stringsTrimPrefix (s pre : String) : String :=
  if charsHasPrefix s.data pre.data then ⟨s.data.drop pre.data.length⟩ else s

/-- The loop over `GetDrives()` in `getDestPath` and `ExportAsZip`: the path without the first
drive that is a prefix of it, or the path itself. -/
def stripDrive (path : String) : List String → String
  | [] => path
  | drive :: rest =>
    if charsHasPrefix path.data drive.data then stringsTrimPrefix path drive
    else stripDrive path rest

/-- Source `Exporter.getDestPath`. -/
def getDestPath (env : DriveEnv) (options : ExportOptions) (file : FileInfo) : String :=
  if options.KeepStructure then
    filepathJoin options.DestPath (stripDrive file.Path (GetDrives env))
  else
    filepathJoin options.DestPath file.Name

/-! ## exporter.go: `ExportAsZip` -/

/-- The outcomes of the calls that one `addFileToZip` makes, in source order: `os.Open`,
`srcFile.Stat`, `zip.FileInfoHeader`, `zipWriter.CreateHeader`, `io.Copy` (`none`: success). -/
structure ZipAddEnv where
  openErr : Option String
  statErr : Option String
  headerErr : Option String
  createErr : Option String
  copyErr : Option String

/-- Source `Exporter.addFileToZip`: the returned error and the entry names of the archive
after the call. -/
def addFileToZip (env : ZipAddEnv) (entries : List String) (zipEntryPath : String) :
    Option String × List String :=
  match env.openErr with
  | some err => (some err, entries)
  | none =>
    match env.statErr with
    | some err => (some err, entries)
    | none =>
      match env.headerErr with
      | some err => (some err, entries)
      | none =>
        match env.createErr with
        | some err => (some err, entries)
        | none => (env.copyErr, entries ++ [zipEntryPath])

/-- The variables that the loop of `ExportAsZip` updates. -/
structure ZipLoopState where
  result : ExportResult
  progress : ExportProgress
  entries : List String
deriving Repr

/-- The loop `for i, file := range options.Files` of `ExportAsZip`, from index `i` on; `addEnv j`
gives the outcomes met while adding the file at index `j`. -/
def zipLoop (drives : DriveEnv) (addEnv : Nat → ZipAddEnv) (options : ExportOptions)
    (total : Nat) : Nat → List FileInfo → ZipLoopState → ZipLoopState
  | _, [], st => st
  | i, file :: rest, st =>
    let progress := { st.progress with
      Current := file.Name, Completed := i, Percent := percentOf i total }
    let zipEntryPath :=
      if options.KeepStructure then
        stringsTrimPrefix (stripDrive file.Path (GetDrives drives)) "/"
      else file.Name
    let r := addFileToZip (addEnv i) st.entries zipEntryPath
    let result :=
      match r.1 with
      | some _ => { st.result with
          Failed := st.result.Failed + 1, FailedFiles := st.result.FailedFiles ++ [file.Path] }
      | none => { st.result with Success := st.result.Success + 1 }
    zipLoop drives addEnv options total (i + 1) rest
      { result := result, progress := progress, entries := r.2 }

/-- What `ExportAsZip` returns (`result = none` is the nil `*ExportResult`), the exporter's
progress afterwards, and the archive it wrote (path and entry names) when it created one. -/
structure ZipOutcome where
  result : Option ExportResult
  err : Option String
  progress : ExportProgress
  archive : Option (String × List String)
deriving Repr

/-- Source `Exporter.ExportAsZip`. `timestamp` is `time.Now().Format("20060102-150405")`,
`mkdirErr` and `createErr` are the outcomes of `os.MkdirAll` and `os.Create`, `p0` is the
exporter's progress before the call. -/
def ExportAsZip (timestamp : String) (mkdirErr createErr : Option String) (drives : DriveEnv)
    (addEnv : Nat → ZipAddEnv) (p0 : ExportProgress) (options : ExportOptions) : ZipOutcome :=
  let zipFileName := "office-files-" ++ timestamp ++ ".zip"
  let zipPath := filepathJoin options.DestPath zipFileName
  match mkdirErr with
  | some err =>
    { result := none, err := some ("无法创建目标目录: " ++ err), progress := p0, archive := none }
  | none =>
    match createErr with
    | some err =>
      { result := none, err := some ("无法创建压缩文件: " ++ err), progress := p0,
        archive := none }
    | none =>
      let total := options.Files.length
      let st0 : ZipLoopState :=
        { result := { Success := 0, Failed := 0, FailedFiles := [], SkippedFiles := [] },
          progress := { Total := total, Completed := 0, Failed := 0, Current := "",
                        Percent := 0 },
          entries := [] }
      let st := zipLoop drives addEnv options total 0 options.Files st0
      { result := some st.result, err := none,
        progress := { st.progress with Completed := total, Percent := 100 },
        archive := some (zipPath, st.entries) }

/-! ## exporter.go: `Export` (copy mode)

The four workers run concurrently. Each worker is a small program: its position is a
`WorkerPc`, and one step of one worker performs one access to the shared variables (the two
channels, the two atomic counters, the lock, the progress). A schedule is the list of the
workers that step, in order; a worker that cannot move (the lock is taken) stays where it is.
The sender goroutine has filled and closed `fileChan`, whose capacity is the whole list; the
outcomes of `os.Stat` and `copyFile` are given by the environment. -/

/-- The value sent on `resultChan`. -/
structure WorkResult where
  success : Bool
  file : String
  skipped : Bool
deriving Repr, DecidableEq

/-- Where a worker stands in the body of `for file := range fileChan`. -/
inductive WorkerPc
  | receive
  | gotFile (file : FileInfo)
  | skipAdd
  | failAdd (file : FileInfo)
  | completedAdd (file : FileInfo)
  | lock (file : FileInfo)
  | loadCompleted (file : FileInfo)
  | loadFailed (file : FileInfo) (completed : Nat)
  | store (file : FileInfo) (completed failed : Nat)
  | unlock
  | done
deriving Repr, DecidableEq

/-- What the copy asks of the file system: the drives, whether `os.Stat(destPath)` succeeds,
and the error of `copyFile(src, dst)` (`none`: the copy succeeds). -/
structure CopyEnv where
  drives : DriveEnv
  destExists : String → Bool
  copyFile : String → String → Option String

/-- The variables shared by the workers of one `Export` call. -/
structure ExportShared where
  fileChan : List FileInfo
  resultChan : List WorkResult
  completed : Nat
  failed : Nat
  locked : Bool
  progress : ExportProgress
  workers : List WorkerPc
deriving Repr

/-- One step of worker `i`. -/
def exportStep (env : CopyEnv) (options : ExportOptions) (total : Nat) (i : Nat)
    (sh : ExportShared) : ExportShared :=
  match sh.workers.get? i with
  | none => sh
  | some .receive =>
    match sh.fileChan with
    | [] => { sh with workers := sh.workers.set i .done }
    | file :: rest => { sh with fileChan := rest, workers := sh.workers.set i (.gotFile file) }
  | some (.gotFile file) =>
    let destPath := getDestPath env.drives options file
    if !options.Overwrite && env.destExists destPath then
      { sh with
        resultChan := sh.resultChan ++ [{ success := true, file := file.Path, skipped := true }]
        workers := sh.workers.set i .skipAdd }
    else
      match env.copyFile file.Path destPath with
      | some _ =>
        { sh with
          resultChan := sh.resultChan ++
            [{ success := false, file := file.Path, skipped := false }]
          workers := sh.workers.set i (.failAdd file) }
      | none =>
        { sh with
          resultChan := sh.resultChan ++
            [{ success := true, file := file.Path, skipped := false }]
          workers := sh.workers.set i (.completedAdd file) }
  | some .skipAdd =>
    { sh with completed := sh.completed + 1, workers := sh.workers.set i .receive }
  | some (.failAdd file) =>
    { sh with failed := sh.failed + 1, workers := sh.workers.set i (.completedAdd file) }
  | some (.completedAdd file) =>
    { sh with completed := sh.completed + 1, workers := sh.workers.set i (.lock file) }
  | some (.lock file) =>
    if sh.locked then sh
    else { sh with locked := true, workers := sh.workers.set i (.loadCompleted file) }
  | some (.loadCompleted file) =>
    { sh with workers := sh.workers.set i (.loadFailed file sh.completed) }
  | some (.loadFailed file completed) =>
    { sh with workers := sh.workers.set i (.store file completed sh.failed) }
  | some (.store file completed failed) =>
    { sh with
      progress := { Total := total, Completed := completed, Failed := failed,
                    Current := file.Name, Percent := percentOf sh.completed total }
      workers := sh.workers.set i .unlock }
  | some .unlock =>
    { sh with locked := false, workers := sh.workers.set i .receive }
  | some .done => sh

/-- The loop `for r := range resultChan` of `Export`. -/
def collectResults (results : List WorkResult) : ExportResult :=
  results.foldl (fun result r =>
    if r.skipped then
      { result with SkippedFiles := result.SkippedFiles ++ [r.file],
                    Success := result.Success + 1 }
    else if r.success then { result with Success := result.Success + 1 }
    else { result with Failed := result.Failed + 1,
                       FailedFiles := result.FailedFiles ++ [r.file] })
    { Success := 0, Failed := 0, FailedFiles := [], SkippedFiles := [] }

/-- What `Export` returns, whether it has returned under the schedule, and the exporter's
progress (`GetProgress`) at the end of the schedule. -/
structure ExportOutcome where
  returned : Bool
  result : Option ExportResult
  err : Option String
  progress : ExportProgress
deriving Repr

/-- Source `Exporter.Export` under a schedule of its four workers. `mkdirErr` is the outcome of
`os.MkdirAll`, `p0` the exporter's progress before the call. `Export` returns once every worker
is done: `wg.Wait` ends, `resultChan` is closed and the collecting loop has read it all. -/
def Export (env : CopyEnv) (mkdirErr : Option String) (p0 : ExportProgress)
    (options : ExportOptions) (schedule : List Nat) : ExportOutcome :=
  match mkdirErr with
  | some err =>
    { returned := true, result := none, err := some ("无法创建目标目录: " ++ err),
      progress := p0 }
  | none =>
    let total := options.Files.length
    let sh0 : ExportShared :=
      { fileChan := options.Files, resultChan := [], completed := 0, failed := 0,
        locked := false, progress := p0, workers := List.replicate 4 .receive }
    let sh := schedule.foldl (fun sh i => exportStep env options total i sh) sh0
    if sh.workers.all (fun pc => pc == .done) then
      { returned := true, result := some (collectResults sh.resultChan), err := none,
        progress := sh.progress }
    else
      { returned := false, result := none, err := none, progress := sh.progress }

/-! ## Specification-side definitions for the exporter -/

/-- One of the calls of an `addFileToZip` fails. -/
def addFails (env : ZipAddEnv) : Bool :=
  env.openErr.isSome || env.statErr.isSome || env.headerErr.isSome || env.createErr.isSome ||
    env.copyErr.isSome

/-- The paths of the files whose addition fails, in input order; the list pairs each file with
its index. -/
def failedPaths (addEnv : Nat → ZipAddEnv) (files : List (Nat × FileInfo)) : List String :=
  (files.filter (fun p => addFails (addEnv p.1))).map (fun p => p.2.Path)

/-- A file system in which `/out/a.pdf` already exists and every copy succeeds. -/
def skipEnv : CopyEnv :=
  { drives := { statOk := fun p => p == "/", homeDir := some "/home/u" },
    destExists := fun p => p == "/out/a.pdf",
    copyFile := fun _ _ => none }

/-- A PDF `FileInfo` below `/data` with the given name. -/
def dataFile (name : String) : FileInfo :=
  { Path := "/data/" ++ name, Name := name, Size := 4, ModTime := 0, Extension := ".pdf",
    FileType := "pdf", IsValid := true, InvalidReason := "" }

/-- Copy-mode options for the named files of `/data`, to `/out`, without overwriting. -/
def skipOptions (names : List String) : ExportOptions :=
  { DestPath := "/out", Files := names.map dataFile, KeepStructure := false,
    Overwrite := false }

/-- The positions a worker can be in while every file it meets is skipped. -/
def SkipOnlyPc (files : List FileInfo) (pc : WorkerPc) : Prop :=
  pc = .receive ∨ pc = .skipAdd ∨ pc = .done ∨ ∃ f ∈ files, pc = .gotFile f

/-- The invariant of a run in which every file is skipped: the progress is still `p0`. -/
def SkipOnlyInv (files : List FileInfo) (p0 : ExportProgress) (sh : ExportShared) : Prop :=
  sh.progress = p0 ∧ (∀ f ∈ sh.fileChan, f ∈ files) ∧ ∀ pc ∈ sh.workers, SkipOnlyPc files pc

/-! ## Validator: lemmas and theorems -/

theorem bytesHasPrefix_iff (s pre : List Nat) : bytesHasPrefix s pre = true ↔ pre <+: s := by
  induction pre generalizing s with
  | nil => simp [bytesHasPrefix]
  | cons b pre ih =>
    cases s with
    | nil => simp [bytesHasPrefix]
    | cons a s =>
      simp only [bytesHasPrefix, Bool.and_eq_true, beq_iff_eq, ih, List.cons_prefix_cons]
      constructor
      · rintro ⟨h, h2⟩; exact ⟨h.symm, h2⟩
      · rintro ⟨h, h2⟩; exact ⟨h.symm, h2⟩

theorem bytesContains_iff (s sub : List Nat) : bytesContains s sub = true ↔ sub <:+: s := by
  induction s with
  | nil =>
    simp only [bytesContains, bytesHasPrefix_iff, List.prefix_nil, List.infix_nil]
  | cons a s ih =>
    simp only [bytesContains, Bool.or_eq_true, bytesHasPrefix_iff, ih, List.infix_cons_iff]

theorem readAt_fst_full (c : List Nat) (pos len : Nat) (h : pos + len ≤ c.length) :
    (readAt c pos len).1 = (c.drop pos).take len := by
  simp only [readAt]
  have : ((c.drop pos).take len).length = len := by simp; omega
  simp [this]

theorem readAt_snd (c : List Nat) (pos len : Nat) :
    (readAt c pos len).2 = min len (c.length - pos) := by
  simp [readAt]

theorem readAt_take (c : List Nat) (pos len : Nat) :
    (readAt c pos len).1.take (readAt c pos len).2 = (c.drop pos).take len := by
  simp only [readAt]
  rw [List.take_left']
  rfl

theorem bytesHasPrefix_pad (pre : List Nat) (hz : ∀ b ∈ pre, b ≠ 0) (c : List Nat) (k : Nat) :
    ∀ n, pre.length ≤ n →
      bytesHasPrefix (c.take n ++ List.replicate k 0) pre = bytesHasPrefix c pre := by
  induction pre generalizing c with
  | nil => intro n _; simp [bytesHasPrefix]
  | cons b pre ih =>
    intro n hn
    have hb : b ≠ 0 := hz b (List.mem_cons_self _ _)
    have hz2 : ∀ x ∈ pre, x ≠ 0 := fun x hx => hz x (List.mem_cons_of_mem _ hx)
    cases n with
    | zero => simp at hn
    | succ n =>
      cases c with
      | nil =>
        cases k with
        | zero => simp [bytesHasPrefix]
        | succ k =>
          simp only [List.take_nil, List.nil_append, List.replicate_succ, bytesHasPrefix]
          have : (0 == b) = false := by simpa using hb.symm
          simp [this]
      | cons a c =>
        have h := ih hz2 c n (by simpa using hn)
        simp only [List.take_succ_cons, List.cons_append, bytesHasPrefix]
        exact congrArg (fun t => (a == b && t)) h

theorem eofBytes_eq : asciiBytes "%%EOF" = [0x25, 0x25, 0x45, 0x4F, 0x46] := by decide
theorem objBytes_eq : asciiBytes "obj" = [0x6F, 0x62, 0x6A] := by decide

theorem pdf_three_checks_size (content : List Nat)
    (h1 : bytesHasPrefix content pdfMagic = true)
    (h2 : bytesContains content (asciiBytes "%%EOF") = true)
    (h3 : bytesContains content (asciiBytes "obj") = true) : 10 ≤ content.length := by
  rw [eofBytes_eq] at h2
  rw [objBytes_eq] at h3
  by_contra hlen
  rcases content with _ | ⟨a, _ | ⟨b, _ | ⟨c, _ | ⟨d, rest⟩⟩⟩⟩ <;>
    simp [bytesHasPrefix, pdfMagic] at h1
  obtain ⟨rfl, rfl, rfl, rfl⟩ := h1
  rcases rest with _ | ⟨e, _ | ⟨f, _ | ⟨g, _ | ⟨h, _ | ⟨i, _ | ⟨j, rest⟩⟩⟩⟩⟩⟩ <;>
    simp [bytesContains, bytesHasPrefix] at h2 h3 hlen
  omega

theorem header_prefix_eq (content pre : List Nat) (hz : ∀ b ∈ pre, b ≠ 0) (hl : pre.length ≤ 8) :
    bytesHasPrefix (readAt content 0 8).1 pre = bytesHasPrefix content pre := by
  simp only [readAt, List.drop_zero]
  exact bytesHasPrefix_pad pre hz content _ 8 hl

theorem ValidateFile_pdf_eq (content : List Nat) :
    (ValidateFile (.readable content) "pdf").1 =
      (bytesHasPrefix content pdfMagic &&
        bytesContains (content.drop (content.length - 1024)) (asciiBytes "%%EOF") &&
        bytesContains (content.take 4096) (asciiBytes "obj")) := by
  have hpre := header_prefix_eq content pdfMagic (by decide) (by decide)
  by_cases h1 : bytesHasPrefix content pdfMagic = true
  · have h4 : 4 ≤ content.length := by
      have := (bytesHasPrefix_iff _ _).1 h1
      have := this.length_le
      simpa [pdfMagic] using this
    by_cases hs : content.length < 10
    · have hne : content.length ≠ 0 := by omega
      have hrd : ¬ (readAt content 0 8).2 < 4 := by rw [readAt_snd]; omega
      have hd : content.length - 1024 = 0 := by omega
      have ht : content.take 4096 = content := List.take_of_length_le (by omega)
      simp only [ValidateFile, hne, hrd, if_false, if_true, validatePDF, hpre, h1, hs, hd,
        List.drop_zero, ht, Bool.not_true, Bool.true_and]
      by_cases h2 : bytesContains content (asciiBytes "%%EOF") = true
      · by_cases h3 : bytesContains content (asciiBytes "obj") = true
        · have := pdf_three_checks_size content h1 h2 h3
          omega
        · simp [h2, h3]
      · simp [h2]
    · have hne : content.length ≠ 0 := by omega
      have hrd : ¬ (readAt content 0 8).2 < 4 := by rw [readAt_snd]; omega
      have htail : (readAt content (content.length - (if content.length < 1024 then
          content.length else 1024)) (if content.length < 1024 then content.length else 1024)).1
          = content.drop (content.length - 1024) := by
        by_cases hk : content.length < 1024
        · have e1 : content.length - content.length = 0 := Nat.sub_self _
          have e2 : content.length - 1024 = 0 := by omega
          rw [if_pos hk, e1, e2, readAt_fst_full _ _ _ (by omega), List.drop_zero,
            List.take_of_length_le (le_refl _)]
        · rw [if_neg hk, readAt_fst_full _ _ _ (by omega)]
          exact List.take_of_length_le (by rw [List.length_drop]; omega)
      have hcont : (readAt content 0 (min content.length 4096)).1 = content.take 4096 := by
        rw [readAt_fst_full _ _ _ (by omega), List.drop_zero]
        rcases Nat.le_total content.length 4096 with h | h
        · rw [Nat.min_eq_left h, List.take_of_length_le (le_refl _), List.take_of_length_le h]
        · rw [Nat.min_eq_right h]
      simp only [ValidateFile, hne, hrd, if_false, if_true, validatePDF, hpre, h1, hs, htail,
        hcont, Bool.not_true, Bool.true_and]
      by_cases h2 : bytesContains (content.drop (content.length - 1024)) (asciiBytes "%%EOF") = true
      · by_cases h3 : bytesContains (content.take 4096) (asciiBytes "obj") = true
        · simp [h2, h3]
        · simp [h2, h3]
      · simp [h2]
  · have h1f : bytesHasPrefix content pdfMagic = false := by simpa using h1
    simp only [ValidateFile, validatePDF, hpre, h1f, Bool.not_false, if_true, Bool.false_and]
    split
    · rfl
    · split <;> rfl

/-- C1: for every readable content, `ValidateFile` with declared type `pdf` returns valid exactly
when the content starts with `25 50 44 46`, its last 1024 bytes (all of it when shorter) contain
`%%EOF`, and its first 4096 bytes contain `obj`. In particular the empty-file check, the
four-header-bytes check and the `size < 10` check reject no content that meets the three. -/
theorem ValidateFile_pdf_valid_iff (content : List Nat) :
    (ValidateFile (.readable content) "pdf").1 = true ↔
      (pdfMagic <+: content ∧
        asciiBytes "%%EOF" <:+: content.drop (content.length - 1024) ∧
        asciiBytes "obj" <:+: content.take 4096) := by
  rw [ValidateFile_pdf_eq]
  simp only [Bool.and_eq_true, bytesHasPrefix_iff, bytesContains_iff, and_assoc]

theorem fileType_office_ne_pdf (fileType : String)
    (hty : fileType = "word" ∨ fileType = "excel" ∨ fileType = "ppt") : fileType ≠ "pdf" := by
  rcases hty with h | h | h <;> subst h <;> decide

theorem ValidateFile_office_eq (content : List Nat) (fileType : String)
    (hty : fileType = "word" ∨ fileType = "excel" ∨ fileType = "ppt")
    (h4 : 4 ≤ content.length) :
    ValidateFile (.readable content) fileType =
      validateOffice content (readAt content 0 8).1 content.length fileType := by
  have hne : content.length ≠ 0 := by omega
  have hrd : ¬ (readAt content 0 8).2 < 4 := by rw [readAt_snd]; omega
  simp only [ValidateFile, hne, hrd, if_false, fileType_office_ne_pdf fileType hty, hty, if_true]

theorem getD_take_of_lt (l : List Nat) (i n : Nat) (h : i < n) :
    (l.take n).getD i 0 = l.getD i 0 := by
  simp only [List.getD_eq_getElem?_getD, List.getElem?_take, h, if_true]

theorem validateOLE2_valid_iff (content : List Nat) (fileType : String)
    (hsig : bytesHasPrefix content oleMagic = true) :
    (validateOLE2 content content.length fileType).1 = true ↔
      1536 ≤ content.length ∧ (uint16LE content 30 = 9 ∨ uint16LE content 30 = 12) := by
  by_cases h512 : content.length < 512
  · have : (readAt content 0 512).2 < 512 := by rw [readAt_snd]; omega
    simp only [validateOLE2, this, if_true]
    constructor
    · intro h; cases h
    · rintro ⟨h, _⟩; omega
  · have hn : ¬ (readAt content 0 512).2 < 512 := by rw [readAt_snd]; omega
    have hbuf : (readAt content 0 512).1 = content.take 512 := by
      rw [readAt_fst_full _ _ _ (by omega), List.drop_zero]
    have hpre : bytesHasPrefix (content.take 512) oleMagic = true := by
      have := bytesHasPrefix_pad oleMagic (by decide) content 0 512 (by decide)
      simpa [hsig] using this
    have hu : uint16LE (content.take 512) 30 = uint16LE content 30 := by
      simp only [uint16LE]
      rw [getD_take_of_lt _ _ _ (by omega), getD_take_of_lt _ _ _ (by omega)]
    simp only [validateOLE2, hn, if_false, hbuf, hpre, hu, Bool.not_true]
    by_cases h9 : uint16LE content 30 = 9
    · by_cases hs : content.length < 1536
      · simp [h9, hs]
      · simp [h9, hs]; omega
    · by_cases h12 : uint16LE content 30 = 12
      · by_cases hs : content.length < 1536
        · simp [h12, hs]
        · simp [h12, hs]; omega
      · simp [h9, h12]

/-- C2: for a file that starts with the OLE2 signature and a declared type among `word`,
`excel`, `ppt`, `ValidateFile` returns valid exactly when the file has at least 1536 bytes and
the little-endian 16-bit value at offsets 30-31 is 9 or 12; no CSV fallback decides for
`excel`. -/
theorem ValidateFile_ole2_valid_iff (content : List Nat) (fileType : String)
    (hty : fileType = "word" ∨ fileType = "excel" ∨ fileType = "ppt")
    (hsig : oleMagic <+: content) :
    (ValidateFile (.readable content) fileType).1 = true ↔
      1536 ≤ content.length ∧ (uint16LE content 30 = 9 ∨ uint16LE content 30 = 12) := by
  have hb : bytesHasPrefix content oleMagic = true := (bytesHasPrefix_iff _ _).2 hsig
  have h8 : 8 ≤ content.length := by
    have := hsig.length_le
    simpa [oleMagic] using this
  rw [ValidateFile_office_eq content fileType hty (by omega)]
  have hz : bytesHasPrefix (readAt content 0 8).1 zipMagic = false := by
    rw [header_prefix_eq content zipMagic (by decide) (by decide)]
    rcases content with _ | ⟨a, _ | ⟨b, rest⟩⟩ <;> simp [bytesHasPrefix, oleMagic, zipMagic] at hb ⊢
    omega
  have ho : bytesHasPrefix (readAt content 0 8).1 oleMagic = true := by
    rw [header_prefix_eq content oleMagic (by decide) (by decide)]; exact hb
  simp only [validateOffice, hz, ho, if_true, Bool.false_eq_true, if_false]
  exact validateOLE2_valid_iff content fileType hb

theorem ValidateFile_ole2_valid_iff_witness :
    ("excel" = "word" ∨ "excel" = "excel" ∨ "excel" = "ppt") ∧ oleMagic <+: oleSample ∧
      ((ValidateFile (.readable oleSample) "excel").1 = true ↔
        1536 ≤ oleSample.length ∧ (uint16LE oleSample 30 = 9 ∨ uint16LE oleSample 30 = 12)) :=
  ⟨by decide, ⟨_, rfl⟩, ValidateFile_ole2_valid_iff oleSample "excel" (by decide) ⟨_, rfl⟩⟩

theorem readAt_sample (content : List Nat) (k : Nat) :
    (readAt content 0 (min content.length k)).1.take (readAt content 0 (min content.length k)).2
      = content.take k := by
  rw [readAt_take, List.drop_zero]
  rcases Nat.le_total content.length k with h | h
  · rw [Nat.min_eq_left h, List.take_of_length_le (le_refl _), List.take_of_length_le h]
  · rw [Nat.min_eq_right h]

theorem ValidateFile_zip_eq (content : List Nat) (fileType : String)
    (hty : fileType = "word" ∨ fileType = "excel" ∨ fileType = "ppt")
    (hsig : zipMagic <+: content) :
    ValidateFile (.readable content) fileType =
      validateOOXML content content.length fileType := by
  have hb : bytesHasPrefix content zipMagic = true := (bytesHasPrefix_iff _ _).2 hsig
  have h4 : 4 ≤ content.length := by
    have := hsig.length_le
    simpa [zipMagic] using this
  rw [ValidateFile_office_eq content fileType hty h4]
  have hz : bytesHasPrefix (readAt content 0 8).1 zipMagic = true := by
    rw [header_prefix_eq content zipMagic (by decide) (by decide)]; exact hb
  simp only [validateOffice, hz, if_true]

theorem zip_sample_contains_PK (content : List Nat) (hsig : zipMagic <+: content) :
    bytesContains (content.take 8192) (asciiBytes "PK") = true := by
  obtain ⟨t, rfl⟩ := hsig
  rw [bytesContains_iff]
  refine ⟨[], ([0x03, 0x04] ++ t).take 8190, ?_⟩
  simp [zipMagic, asciiBytes]

/-- C3, amended: a file that starts with the zip signature, declared `word`, `excel` or `ppt`,
whose first 8192 bytes contain neither `[Content_Types].xml` nor a marker of the declared
category, is rejected with the reason `Office文件内容异常` (the sample always contains `PK`). -/
theorem ValidateFile_zip_no_marker_rejected (content : List Nat) (fileType : String)
    (hty : fileType = "word" ∨ fileType = "excel" ∨ fileType = "ppt")
    (hsig : zipMagic <+: content)
    (hct : ¬ asciiBytes "[Content_Types].xml" <:+: content.take 8192)
    (hcat : ∀ m ∈ categoryMarkers fileType, ¬ m <:+: content.take 8192) :
    ValidateFile (.readable content) fileType = (false, "Office文件内容异常") := by
  rw [ValidateFile_zip_eq content fileType hty hsig]
  have hpk := zip_sample_contains_PK content hsig
  have hct2 : bytesContains (content.take 8192) (asciiBytes "[Content_Types].xml") = false := by
    rw [← Bool.not_eq_true, bytesContains_iff]; exact hct
  have hm : ∀ m ∈ categoryMarkers fileType, bytesContains (content.take 8192) m = false := by
    intro m hmem
    rw [← Bool.not_eq_true, bytesContains_iff]; exact hcat m hmem
  simp only [validateOOXML, readAt_sample, hpk, hct2]
  rcases hty with h | h | h <;> subst h <;>
    simp [categoryMarkers] at hm <;> simp [hm]

theorem ValidateFile_zip_no_marker_rejected_witness :
    ("word" = "word" ∨ "word" = "excel" ∨ "word" = "ppt") ∧ zipMagic <+: zipMagic ∧
      ¬ asciiBytes "[Content_Types].xml" <:+: zipMagic.take 8192 ∧
      (∀ m ∈ categoryMarkers "word", ¬ m <:+: zipMagic.take 8192) ∧
      ValidateFile (.readable zipMagic) "word" = (false, "Office文件内容异常") :=
  ⟨by decide, List.prefix_refl _, by decide, by decide,
    ValidateFile_zip_no_marker_rejected zipMagic "word" (by decide) (List.prefix_refl _)
      (by decide) (by decide)⟩

/-- C3, counterexample: `zipNoMarkerSample` starts with the zip signature, holds `PK` twice and
no Office marker, and `ValidateFile` with type `word` rejects it. -/
theorem ValidateFile_zip_PK_only_not_accepted :
    zipMagic <+: zipNoMarkerSample ∧
      ¬ asciiBytes "[Content_Types].xml" <:+: zipNoMarkerSample.take 8192 ∧
      (∀ m ∈ categoryMarkers "word", ¬ m <:+: zipNoMarkerSample.take 8192) ∧
      asciiBytes "PK" <:+: zipNoMarkerSample.take 8192 ∧
      ValidateFile (.readable zipNoMarkerSample) "word" = (false, "Office文件内容异常") := by
  refine ⟨⟨_, rfl⟩, by decide, by decide, by decide, by decide⟩

theorem string_append_ne_empty (a b : String) (h : a ≠ "") : a ++ b ≠ "" := by
  intro hab
  apply h
  have h1 := congrArg String.data hab
  rw [String.data_append] at h1
  have h2 : a.data = [] := (List.append_eq_nil.mp h1).1
  exact String.ext h2

theorem reason_iff_of_cases (r : Bool × String)
    (h : r = (true, "") ∨ (r.1 = false ∧ r.2 ≠ "")) : r.2 ≠ "" ↔ r.1 = false := by
  rcases h with h | ⟨h1, h2⟩
  · subst h; simp
  · simp [h1, h2]

theorem validatePDF_cases (file header : List Nat) (size : Nat) :
    validatePDF file header size = (true, "") ∨
      ((validatePDF file header size).1 = false ∧ (validatePDF file header size).2 ≠ "") := by
  unfold validatePDF
  dsimp only
  split_ifs <;> first | (left; rfl) | (right; exact ⟨rfl, by decide⟩)

theorem validateOOXML_cases (file : List Nat) (size : Nat) (fileType : String) :
    validateOOXML file size fileType = (true, "") ∨
      ((validateOOXML file size fileType).1 = false ∧
        (validateOOXML file size fileType).2 ≠ "") := by
  unfold validateOOXML
  dsimp only
  split_ifs <;> first | (left; rfl) | (right; exact ⟨rfl, by decide⟩)

theorem validateOLE2_cases (file : List Nat) (size : Nat) (fileType : String) :
    validateOLE2 file size fileType = (true, "") ∨
      ((validateOLE2 file size fileType).1 = false ∧
        (validateOLE2 file size fileType).2 ≠ "") := by
  unfold validateOLE2
  dsimp only
  split_ifs <;> first | (left; rfl) | (right; exact ⟨rfl, by decide⟩)

theorem validateOffice_cases (file header : List Nat) (size : Nat) (fileType : String) :
    validateOffice file header size fileType = (true, "") ∨
      ((validateOffice file header size fileType).1 = false ∧
        (validateOffice file header size fileType).2 ≠ "") := by
  unfold validateOffice
  split
  · exact validateOOXML_cases _ _ _
  split
  · exact validateOLE2_cases _ _ _
  split
  · left; rfl
  · right; exact ⟨rfl, by decide⟩

theorem ValidateFile_cases (f : FileAccess) (fileType : String) :
    ValidateFile f fileType = (true, "") ∨
      ((ValidateFile f fileType).1 = false ∧ (ValidateFile f fileType).2 ≠ "") := by
  cases f with
  | openError msg => right; exact ⟨rfl, string_append_ne_empty _ _ (by decide)⟩
  | statError msg => right; exact ⟨rfl, string_append_ne_empty _ _ (by decide)⟩
  | headerReadError size msg =>
    right
    simp only [ValidateFile]
    split
    · exact ⟨rfl, by decide⟩
    · exact ⟨rfl, string_append_ne_empty _ _ (by decide)⟩
  | readable content =>
    simp only [ValidateFile]
    split
    · right; exact ⟨rfl, by decide⟩
    split
    · right; exact ⟨rfl, by decide⟩
    split
    · exact validatePDF_cases _ _ _
    split
    · exact validateOffice_cases _ _ _ _
    · left; rfl

/-- C5: `ValidateFile` returns a non-empty reason exactly when it returns invalid, for every
file state and declared type; an empty file is rejected with the reason `文件为空` whatever the
declared type. -/
theorem ValidateFile_reason_iff_invalid (f : FileAccess) (fileType : String) :
    ((ValidateFile f fileType).2 ≠ "" ↔ (ValidateFile f fileType).1 = false) ∧
      ValidateFile (.readable []) fileType = (false, "文件为空") ∧
      (∀ msg, ValidateFile (.headerReadError 0 msg) fileType = (false, "文件为空")) :=
  ⟨reason_iff_of_cases _ (ValidateFile_cases f fileType), rfl, fun _ => rfl⟩

theorem roundNearestEven_err (s : ℚ) : |(roundNearestEven s : ℚ) - s| ≤ 1 / 2 := by
  have h1 : (⌊s⌋ : ℚ) ≤ s := Int.floor_le s
  have h2 : s < (⌊s⌋ : ℚ) + 1 := Int.lt_floor_add_one s
  unfold roundNearestEven
  dsimp only
  rw [abs_le]
  split_ifs with ha hb hc
  · constructor <;> linarith
  · push_cast; constructor <;> linarith
  · constructor <;> linarith
  · push_cast; constructor <;> linarith

theorem toFloat64_err (q : ℚ) (h0 : 0 < q) (h2 : q < 2) :
    |toFloat64 q - q| ≤ 1 / 2 ^ 53 := by
  have hq : q ≠ 0 := ne_of_gt h0
  have hneg : ¬ q < 0 := not_lt.mpr (le_of_lt h0)
  have habs : |q| = q := abs_of_pos h0
  have he : Int.log 2 q ≤ 0 := by
    have : Int.log 2 q < 1 := (Int.lt_zpow_iff_log_lt (by norm_num) h0).1 (by simpa using h2)
    omega
  set e := Int.log 2 q with hedef
  have hulp : (0 : ℚ) < 2 ^ (e - 52) := zpow_pos (by norm_num) _
  have hulp_le : (2 : ℚ) ^ (e - 52) ≤ 2 ^ (-52 : ℤ) :=
    zpow_le_zpow_right₀ (by norm_num) (by omega)
  have hval : toFloat64 q = (roundNearestEven (q / 2 ^ (e - 52)) : ℚ) * 2 ^ (e - 52) := by
    simp only [toFloat64, hq, hneg, habs, if_false, one_mul, ← hedef]
  rw [hval]
  have herr := roundNearestEven_err (q / 2 ^ (e - 52))
  have hrw : (roundNearestEven (q / 2 ^ (e - 52)) : ℚ) * 2 ^ (e - 52) - q =
      ((roundNearestEven (q / 2 ^ (e - 52)) : ℚ) - q / 2 ^ (e - 52)) * 2 ^ (e - 52) := by
    field_simp
  rw [hrw, abs_mul, abs_of_pos hulp]
  have h52 : (2 : ℚ) ^ (-52 : ℤ) = 1 / 2 ^ 52 := by
    rw [zpow_neg]; norm_num
  calc |(roundNearestEven (q / 2 ^ (e - 52)) : ℚ) - q / 2 ^ (e - 52)| * 2 ^ (e - 52)
      ≤ (1 / 2) * 2 ^ (-52 : ℤ) := by
        apply mul_le_mul herr hulp_le (le_of_lt hulp) (by norm_num)
    _ = 1 / 2 ^ 53 := by rw [h52]; norm_num

theorem isTextByte_iff (b : Nat) :
    isTextByte b = true ↔ ((32 ≤ b ∧ b ≤ 126) ∨ b = 9 ∨ b = 13 ∨ b = 10 ∨ 128 ≤ b) := by
  simp only [isTextByte, Bool.or_eq_true, Bool.and_eq_true, decide_eq_true_eq, beq_iff_eq]
  omega

theorem csv_count_eq (content : List Nat) (n : Nat) :
    content.foldl (fun cnt b =>
      let cnt1 := if (b ≥ 32 ∧ b ≤ 126) ∨ b = 10 ∨ b = 13 ∨ b = 9 then cnt + 1 else cnt
      if b ≥ 0x80 then cnt1 + 1 else cnt1) n = n + content.countP isTextByte := by
  induction content generalizing n with
  | nil => simp
  | cons b rest ih =>
    rw [List.foldl_cons, ih, List.countP_cons]
    dsimp only
    by_cases h1 : b ≥ 0x80
    · have h2 : ¬ ((b ≥ 32 ∧ b ≤ 126) ∨ b = 10 ∨ b = 13 ∨ b = 9) := by omega
      have ht : isTextByte b = true := (isTextByte_iff b).2 (by omega)
      rw [if_pos h1, if_neg h2, if_pos ht]; omega
    · by_cases h2 : (b ≥ 32 ∧ b ≤ 126) ∨ b = 10 ∨ b = 13 ∨ b = 9
      · have ht : isTextByte b = true := (isTextByte_iff b).2 (by omega)
        rw [if_neg h1, if_pos h2, if_pos ht]; omega
      · have ht : ¬ isTextByte b = true := fun h => by
          have := (isTextByte_iff b).1 h
          omega
        rw [if_neg h1, if_neg h2, if_neg ht]; omega

theorem float64_ratio_gt (p t : Nat) (ht : 0 < t) (ht2 : t ≤ 4096) (hp : p ≤ t) :
    float64Div p t > float64Const09 ↔ 10 * p > 9 * t := by
  unfold float64Div float64Const09
  have htq : (0 : ℚ) < t := by exact_mod_cast ht
  have ht4 : (t : ℚ) ≤ 4096 := by exact_mod_cast ht2
  have h09 := toFloat64_err (9 / 10) (by norm_num) (by norm_num)
  rw [abs_le] at h09
  have hsmall : (1 : ℚ) / 2 ^ 53 < 1 / 100000 := by norm_num
  rcases Nat.eq_zero_or_pos p with hp0 | hp0
  · subst hp0
    have hz : toFloat64 ((0 : ℕ) / (t : ℚ)) = 0 := by simp [toFloat64]
    rw [hz]
    constructor
    · intro h; linarith [h09.1]
    · intro h; omega
  · have hpq : (0 : ℚ) < p := by exact_mod_cast hp0
    have hq0 : (0 : ℚ) < (p : ℚ) / t := div_pos hpq htq
    have hq1 : (p : ℚ) / t ≤ 1 := by
      rw [div_le_one htq]; exact_mod_cast hp
    have hq := toFloat64_err ((p : ℚ) / t) hq0 (by linarith)
    rw [abs_le] at hq
    rcases Nat.lt_trichotomy (10 * p) (9 * t) with hlt | heq | hgt
    · have h1 : (10 : ℚ) * p + 1 ≤ 9 * t := by exact_mod_cast hlt
      have h2 : (p : ℚ) / t ≤ 9 / 10 - 1 / 40960 := by
        rw [div_le_iff₀ htq]
        linarith
      constructor
      · intro h; linarith [hq.2, h09.1]
      · intro h; omega
    · have hqe : (p : ℚ) / t = 9 / 10 := by
        rw [div_eq_div_iff (ne_of_gt htq) (by norm_num)]
        have : (10 * p : ℚ) = 9 * t := by exact_mod_cast heq
        linarith
      rw [hqe]
      constructor
      · intro h; exact absurd h (lt_irrefl _)
      · intro h; omega
    · have h1 : (9 : ℚ) * t + 1 ≤ 10 * p := by exact_mod_cast hgt
      have h2 : 9 / 10 + 1 / 40960 ≤ (p : ℚ) / t := by
        rw [le_div_iff₀ htq]
        linarith
      constructor
      · intro _; exact hgt
      · intro _; linarith [hq.1, h09.2]

theorem isValidCSV_iff (content : List Nat) (hne : content ≠ []) (hlen : content.length ≤ 4096) :
    isValidCSV content = true ↔ 10 * content.countP isTextByte > 9 * content.length := by
  unfold isValidCSV
  dsimp only
  rw [csv_count_eq, Nat.zero_add, decide_eq_true_eq]
  exact float64_ratio_gt _ _ (List.length_pos.mpr hne) hlen (List.countP_le_length _)

/-- C4: for a file of at least 4 bytes declared `excel` whose header matches neither the zip nor
the OLE2 signature, `ValidateFile` returns valid exactly when, among the first
`min(size, 4096)` bytes, ten times the number of text bytes (printable ASCII, tab, CR, LF, or
`>= 0x80`, each byte counted once) exceeds nine times the number of sampled bytes. -/
theorem ValidateFile_csv_valid_iff (content : List Nat) (h4 : 4 ≤ content.length)
    (hzip : ¬ zipMagic <+: content) (hole : ¬ oleMagic <+: content) :
    (ValidateFile (.readable content) "excel").1 = true ↔
      10 * (content.take 4096).countP isTextByte > 9 * (content.take 4096).length := by
  rw [ValidateFile_office_eq content "excel" (by decide) h4]
  have hz : bytesHasPrefix (readAt content 0 8).1 zipMagic = false := by
    rw [header_prefix_eq content zipMagic (by decide) (by decide), ← Bool.not_eq_true,
      bytesHasPrefix_iff]
    exact hzip
  have ho : bytesHasPrefix (readAt content 0 8).1 oleMagic = false := by
    rw [header_prefix_eq content oleMagic (by decide) (by decide), ← Bool.not_eq_true,
      bytesHasPrefix_iff]
    exact hole
  have hn : (readAt content 0 (min content.length 4096)).2 > 0 := by
    rw [readAt_snd]; omega
  have hne : content.take 4096 ≠ [] := by
    intro h
    have := congrArg List.length h
    rw [List.length_take, List.length_nil] at this
    omega
  have hlen : (content.take 4096).length ≤ 4096 := by simp
  simp only [validateOffice, hz, ho, Bool.false_eq_true, if_false, readAt_sample, hn,
    decide_True, Bool.true_and, decide_eq_true_eq, if_true]
  rw [← isValidCSV_iff _ hne hlen]
  by_cases hv : isValidCSV (content.take 4096) = true
  · simp [hv]
  · simp [hv]

theorem ValidateFile_csv_valid_iff_witness :
    4 ≤ (asciiBytes "a,b,c").length ∧ ¬ zipMagic <+: asciiBytes "a,b,c" ∧
      ¬ oleMagic <+: asciiBytes "a,b,c" ∧
      ((ValidateFile (.readable (asciiBytes "a,b,c")) "excel").1 = true ↔
        10 * ((asciiBytes "a,b,c").take 4096).countP isTextByte >
          9 * ((asciiBytes "a,b,c").take 4096).length) :=
  ⟨by decide, by decide, by decide,
    ValidateFile_csv_valid_iff (asciiBytes "a,b,c") (by decide) (by decide) (by decide)⟩

/-! ## Scanner: lemmas and theorems -/

theorem throttledUpdate_files (clock : Nat → Int) (st : WalkState) (p : ScanProgress) :
    (throttledUpdate clock st p).files = st.files := by
  unfold throttledUpdate
  split <;> rfl

mutual
theorem walkDir_files (clock : Nat → Int) (options : ScanOptions) (ex : List String) :
    ∀ (path : String) (n : FsNode) (st : WalkState),
      (walkDir (scanWalkFn clock options ex) path n st).2 = none ∧
      (walkDir (scanWalkFn clock options ex) path n st).1.files =
        st.files ++ collectNode options ex path n
  | path, .file name info access, st => by
    simp only [walkDir, scanWalkFn, collectNode, FsNode.isDir]
    by_cases hx : shouldExclude ex path false = true
    · simp [hx]
    · simp only [hx, if_false]
      cases hc : classifyFile options path name info access with
      | none => simp
      | some fi => simp [throttledUpdate_files]
  | path, .dir name readErr children, st => by
    by_cases hx : shouldExclude ex path true = true
    · simp [walkDir, scanWalkFn, collectNode, FsNode.isDir, hx]
    · cases readErr with
      | none =>
        have h := walkEntries_files clock options ex path children
          (throttledUpdate clock { st with scannedDirs := st.scannedDirs + 1 }
            { CurrentPath := path, ScannedDirs := st.scannedDirs + 1,
              FoundFiles := st.foundFiles, CurrentFile := "", IsScanning := true })
        simp only [walkDir, scanWalkFn, collectNode, FsNode.isDir, hx, if_false]
        simpa [throttledUpdate_files] using h
      | some err =>
        simp [walkDir, scanWalkFn, collectNode, FsNode.isDir, hx, throttledUpdate_files]
theorem walkEntries_files (clock : Nat → Int) (options : ScanOptions) (ex : List String) :
    ∀ (path : String) (l : List FsNode) (st : WalkState),
      (walkEntries (scanWalkFn clock options ex) path l st).2 = none ∧
      (walkEntries (scanWalkFn clock options ex) path l st).1.files =
        st.files ++ collectEntries options ex path l
  | path, [], st => by simp [walkEntries, collectEntries]
  | path, d1 :: rest, st => by
    have h1 := walkDir_files clock options ex (filepathJoin path d1.name) d1 st
    have h2 := walkEntries_files clock options ex path rest
      (walkDir (scanWalkFn clock options ex) (filepathJoin path d1.name) d1 st).1
    rw [walkEntries]
    rcases hw : walkDir (scanWalkFn clock options ex) (filepathJoin path d1.name) d1 st with
      ⟨st1, e⟩
    rw [hw] at h1 h2
    simp only at h1
    obtain ⟨he, hf⟩ := h1
    subst he
    simp only
    rw [collectEntries, ← List.append_assoc, ← hf]
    exact h2
end

theorem countValid_aux (files : List FileInfo) (c : Nat × Nat) :
    (files.foldl (fun c f => if f.IsValid then (c.1 + 1, c.2) else (c.1, c.2 + 1)) c).1 +
      (files.foldl (fun c f => if f.IsValid then (c.1 + 1, c.2) else (c.1, c.2 + 1)) c).2 =
      c.1 + c.2 + files.length := by
  induction files generalizing c with
  | nil => simp
  | cons f rest ih =>
    rw [List.foldl_cons, ih]
    by_cases hv : f.IsValid = true
    · simp [hv]; omega
    · simp [hv]; omega

theorem countValid_sum (files : List FileInfo) :
    (countValid files).1 + (countValid files).2 = files.length := by
  unfold countValid
  rw [countValid_aux]
  simp

theorem WalkDir_scan_ok (clock : Nat → Int) (options : ScanOptions) (ex : List String)
    (tree : FsNode) (st : WalkState) :
    (WalkDir (scanWalkFn clock options ex) options.RootPath (.ok tree) st).2 = none ∧
    (WalkDir (scanWalkFn clock options ex) options.RootPath (.ok tree) st).1.files =
      st.files ++ collectNode options ex options.RootPath tree := by
  have h := walkDir_files clock options ex options.RootPath tree st
  have hw : WalkDir (scanWalkFn clock options ex) options.RootPath (.ok tree) st =
      walkDir (scanWalkFn clock options ex) options.RootPath tree st := by
    simp [WalkDir, h.1]
  rw [hw]
  exact h

theorem Scan_ok (clock : Nat → Int) (options : ScanOptions) (tree : FsNode) :
    (Scan clock options (.ok tree)).err = none ∧
    (Scan clock options (.ok tree)).result =
      some { Files := collectNode options (defaultExcludePaths ++ options.ExcludePaths)
               options.RootPath tree,
             TotalCount := (collectNode options (defaultExcludePaths ++ options.ExcludePaths)
               options.RootPath tree).length,
             ValidCount := (countValid (collectNode options
               (defaultExcludePaths ++ options.ExcludePaths) options.RootPath tree)).1,
             InvalidCount := (countValid (collectNode options
               (defaultExcludePaths ++ options.ExcludePaths) options.RootPath tree)).2 } := by
  have h := WalkDir_scan_ok clock options (defaultExcludePaths ++ options.ExcludePaths) tree
    { files := [], scannedDirs := 0, foundFiles := 0, lastUpdateTime := clock 1, clockReads := 2,
      emitted := [{ CurrentPath := options.RootPath, ScannedDirs := 0, FoundFiles := 0,
                    CurrentFile := "", IsScanning := true }] }
  simp only [List.nil_append] at h
  simp only [Scan, h.1, h.2, and_self]

theorem Scan_lstat_error (clock : Nat → Int) (options : ScanOptions) (err : String) :
    (Scan clock options (.error err)).err = none ∧
    (Scan clock options (.error err)).result =
      some { Files := [], TotalCount := 0, ValidCount := 0, InvalidCount := 0 } := by
  simp [Scan, WalkDir, scanWalkFn, countValid]

theorem classifyFile_length (options : ScanOptions) (path name : String) (info : FileStat)
    (access : FileAccess) (hinc : options.IncludeTypes = []) :
    (classifyFile options path name (some info) access).toList.length =
      if (extensionMap (stringsToLower (filepathExt path))).isSome then 1 else 0 := by
  cases hm : extensionMap (stringsToLower (filepathExt path)) with
  | none => simp [classifyFile, hm]
  | some fileType =>
    by_cases hv : options.ValidateFiles = true <;> simp [classifyFile, hm, hinc, hv]

mutual
theorem collectNode_length (options : ScanOptions) (ex : List String)
    (hinc : options.IncludeTypes = []) :
    ∀ (path : String) (n : FsNode), accessibleNode n = true →
      noneExcludedNode ex path n = true →
      (collectNode options ex path n).length = recognisedNode path n
  | path, .file name info access, hacc, hex => by
    simp only [accessibleNode] at hacc
    simp only [noneExcludedNode, Bool.not_eq_true'] at hex
    obtain ⟨st, rfl⟩ := Option.isSome_iff_exists.mp hacc
    simp only [collectNode, hex, Bool.false_eq_true, if_false, recognisedNode]
    exact classifyFile_length options path name st access hinc
  | path, .dir name readErr children, hacc, hex => by
    simp only [accessibleNode, Bool.and_eq_true, Option.isNone_iff_eq_none] at hacc
    simp only [noneExcludedNode, Bool.and_eq_true, Bool.not_eq_true'] at hex
    obtain ⟨rfl, hacc2⟩ := hacc
    simp only [collectNode, hex.1, Bool.false_eq_true, if_false, recognisedNode]
    exact collectEntries_length options ex hinc path children hacc2 hex.2
theorem collectEntries_length (options : ScanOptions) (ex : List String)
    (hinc : options.IncludeTypes = []) :
    ∀ (path : String) (l : List FsNode), accessibleEntries l = true →
      noneExcludedEntries ex path l = true →
      (collectEntries options ex path l).length = recognisedEntries path l
  | path, [], _, _ => by simp [collectEntries, recognisedEntries]
  | path, d1 :: rest, hacc, hex => by
    simp only [accessibleEntries, Bool.and_eq_true] at hacc
    simp only [noneExcludedEntries, Bool.and_eq_true] at hex
    simp only [collectEntries, recognisedEntries, List.length_append]
    rw [collectNode_length options ex hinc (filepathJoin path d1.name) d1 hacc.1 hex.1,
      collectEntries_length options ex hinc path rest hacc.2 hex.2]
end

/-- C6: for an accessible tree none of whose paths is excluded, scanned with an empty
`IncludeTypes`, `Scan` returns a result whose `TotalCount`, `len(Files)` and
`ValidCount + InvalidCount` all equal the number of files with a recognised extension, with or
without validation; the scenario tree (valid `a.pdf`, empty `b.pdf`, zip `c.docx`, `d.txt`)
scanned with validation gives `TotalCount` 3, `ValidCount` 2, `InvalidCount` 1. -/
theorem Scan_counts_recognised (clock : Nat → Int) (options : ScanOptions) (tree : FsNode)
    (hacc : accessibleNode tree = true)
    (hex : noneExcludedNode (defaultExcludePaths ++ options.ExcludePaths) options.RootPath
      tree = true)
    (hinc : options.IncludeTypes = []) :
    (∃ r, (Scan clock options (.ok tree)).result = some r ∧
      (Scan clock options (.ok tree)).err = none ∧
      r.TotalCount = recognisedNode options.RootPath tree ∧
      r.Files.length = recognisedNode options.RootPath tree ∧
      r.ValidCount + r.InvalidCount = recognisedNode options.RootPath tree) ∧
    (∃ r, (Scan clock scenarioOptions (.ok scenarioTree)).result = some r ∧
      r.TotalCount = 3 ∧ r.ValidCount = 2 ∧ r.InvalidCount = 1 ∧
      r.Files.map (fun f => (f.Path, f.IsValid, f.InvalidReason)) =
        [("/data/docs/a.pdf", true, ""), ("/data/docs/b.pdf", false, "文件为空"),
         ("/data/docs/c.docx", true, "")]) := by
  constructor
  · have h := Scan_ok clock options tree
    have hl := collectNode_length options (defaultExcludePaths ++ options.ExcludePaths) hinc
      options.RootPath tree hacc hex
    refine ⟨_, h.2, h.1, hl, hl, ?_⟩
    rw [← hl]
    exact countValid_sum _
  · have h := Scan_ok clock scenarioOptions scenarioTree
    refine ⟨_, h.2, ?_, ?_, ?_, ?_⟩ <;> decide

theorem Scan_counts_recognised_witness :
    accessibleNode scenarioTree = true ∧
    noneExcludedNode (defaultExcludePaths ++ scenarioOptions.ExcludePaths)
      scenarioOptions.RootPath scenarioTree = true ∧
    scenarioOptions.IncludeTypes = [] ∧
    ((∃ r, (Scan (fun _ => 0) scenarioOptions (.ok scenarioTree)).result = some r ∧
      (Scan (fun _ => 0) scenarioOptions (.ok scenarioTree)).err = none ∧
      r.TotalCount = recognisedNode scenarioOptions.RootPath scenarioTree ∧
      r.Files.length = recognisedNode scenarioOptions.RootPath scenarioTree ∧
      r.ValidCount + r.InvalidCount = recognisedNode scenarioOptions.RootPath scenarioTree) ∧
    (∃ r, (Scan (fun _ => 0) scenarioOptions (.ok scenarioTree)).result = some r ∧
      r.TotalCount = 3 ∧ r.ValidCount = 2 ∧ r.InvalidCount = 1 ∧
      r.Files.map (fun f => (f.Path, f.IsValid, f.InvalidReason)) =
        [("/data/docs/a.pdf", true, ""), ("/data/docs/b.pdf", false, "文件为空"),
         ("/data/docs/c.docx", true, "")])) :=
  ⟨by decide, by decide, rfl,
    Scan_counts_recognised (fun _ => 0) scenarioOptions scenarioTree (by decide) (by decide) rfl⟩

theorem charsHasPrefix_iff (s pre : List Char) : charsHasPrefix s pre = true ↔ pre <+: s := by
  induction pre generalizing s with
  | nil => simp [charsHasPrefix]
  | cons b pre ih =>
    cases s with
    | nil => simp [charsHasPrefix]
    | cons a s =>
      simp only [charsHasPrefix, Bool.and_eq_true, beq_iff_eq, ih, List.cons_prefix_cons]
      constructor
      · rintro ⟨h, h2⟩; exact ⟨h.symm, h2⟩
      · rintro ⟨h, h2⟩; exact ⟨h.symm, h2⟩

theorem charsContains_iff (s sub : List Char) : charsContains s sub = true ↔ sub <:+: s := by
  induction s with
  | nil =>
    simp only [charsContains, charsHasPrefix_iff, List.prefix_nil, List.infix_nil]
  | cons a s ih =>
    simp only [charsContains, Bool.or_eq_true, charsHasPrefix_iff, ih, List.infix_cons_iff]

theorem shouldExclude_false_substrings (ex : List String) (path : String) (isDir : Bool)
    (h : shouldExclude ex path isDir = false) :
    ∀ e ∈ ex, ¬ e.data <:+: (normalizeSlashes path).data := by
  intro e he hinf
  have hc : stringsContains (normalizeSlashes path) e = true :=
    (charsContains_iff _ _).2 hinf
  have hany : ex.any (fun excludePath => stringsContains (normalizeSlashes path) excludePath)
      = true := List.any_eq_true.mpr ⟨e, he, hc⟩
  simp [shouldExclude, hany] at h

theorem classifyFile_some (options : ScanOptions) (path name : String)
    (info : Option FileStat) (access : FileAccess) (fi : FileInfo)
    (h : classifyFile options path name info access = some fi) :
    fi.Path = path ∧ fi.Extension = stringsToLower (filepathExt path) ∧
      extensionMap fi.Extension = some fi.FileType ∧
      (options.IncludeTypes ≠ [] → fi.FileType ∈ options.IncludeTypes) := by
  unfold classifyFile at h
  dsimp only at h
  split at h
  · cases h
  · rename_i fileType hm
    split at h
    · cases h
    · rename_i hinc
      cases info with
      | none => cases h
      | some st =>
        have hmem : options.IncludeTypes ≠ [] → fileType ∈ options.IncludeTypes := by
          intro hne
          have hpos : options.IncludeTypes.length > 0 := List.length_pos.mpr hne
          have hany : options.IncludeTypes.any (fun t => t == fileType) = true := by
            by_contra hcon
            exact hinc ⟨hpos, hcon⟩
          obtain ⟨t, ht, hteq⟩ := List.any_eq_true.mp hany
          have : t = fileType := by simpa using hteq
          exact this ▸ ht
        dsimp only at h
        split at h <;> cases h <;> exact ⟨rfl, rfl, hm, hmem⟩

mutual
theorem collectNode_mem (options : ScanOptions) (ex : List String) :
    ∀ (path : String) (n : FsNode) (fi : FileInfo), fi ∈ collectNode options ex path n →
      ∃ p name info access, shouldExclude ex p false = false ∧
        classifyFile options p name info access = some fi ∧ Reaches ex path n p
  | path, .file name info access, fi, h => by
    simp only [collectNode] at h
    by_cases hx : shouldExclude ex path false = true
    · simp [hx] at h
    · have hx2 : shouldExclude ex path false = false := by simpa using hx
      rw [hx2] at h
      simp only [Bool.false_eq_true, if_false, Option.mem_toList, Option.mem_def] at h
      exact ⟨path, name, info, access, hx2, h, Reaches.file path name info access⟩
  | path, .dir name readErr children, fi, h => by
    simp only [collectNode] at h
    by_cases hx : shouldExclude ex path true = true
    · simp [hx] at h
    · have hx2 : shouldExclude ex path true = false := by simpa using hx
      rw [hx2] at h
      simp only [Bool.false_eq_true, if_false] at h
      cases readErr with
      | some err => simp at h
      | none =>
        simp only at h
        obtain ⟨d1, hd1, p, nm, info, access, h1, h2, h3⟩ :=
          collectEntries_mem options ex path children fi h
        exact ⟨p, nm, info, access, h1, h2,
          Reaches.dir path name none children d1 p (by simpa using hx) hd1 h3⟩
theorem collectEntries_mem (options : ScanOptions) (ex : List String) :
    ∀ (path : String) (l : List FsNode) (fi : FileInfo), fi ∈ collectEntries options ex path l →
      ∃ d1, d1 ∈ l ∧ ∃ p name info access, shouldExclude ex p false = false ∧
        classifyFile options p name info access = some fi ∧
        Reaches ex (filepathJoin path d1.name) d1 p
  | path, [], fi, h => by simp [collectEntries] at h
  | path, d1 :: rest, fi, h => by
    simp only [collectEntries, List.mem_append] at h
    rcases h with h | h
    · exact ⟨d1, List.mem_cons_self _ _,
        collectNode_mem options ex (filepathJoin path d1.name) d1 fi h⟩
    · obtain ⟨d2, hd2, hrest⟩ := collectEntries_mem options ex path rest fi h
      exact ⟨d2, List.mem_cons_of_mem _ hd2, hrest⟩
end

theorem Scan_files_mem (clock : Nat → Int) (options : ScanOptions)
    (root : Except String FsNode) (r : ScanResult)
    (hr : (Scan clock options root).result = some r) (fi : FileInfo) (hfi : fi ∈ r.Files) :
    ∃ tree, root = .ok tree ∧
      fi ∈ collectNode options (defaultExcludePaths ++ options.ExcludePaths)
        options.RootPath tree := by
  cases root with
  | error err =>
    rw [(Scan_lstat_error clock options err).2] at hr
    cases hr
    simp at hfi
  | ok tree =>
    rw [(Scan_ok clock options tree).2] at hr
    cases hr
    exact ⟨tree, rfl, hfi⟩

/-- C7: for every `FileInfo` of a scan result, the slash-normalised path contains none of the
default exclusion substrings and none of the caller's `ExcludePaths`; the file is reached from
the root through directories that `shouldExclude` does not match; and the walk of a directory
that `shouldExclude` matches returns at once with the state unchanged. -/
theorem Scan_excluded_paths_absent (clock : Nat → Int) (options : ScanOptions)
    (root : Except String FsNode) (r : ScanResult)
    (hr : (Scan clock options root).result = some r) (fi : FileInfo) (hfi : fi ∈ r.Files) :
    (∀ e ∈ defaultExcludePaths ++ options.ExcludePaths,
        ¬ e.data <:+: (normalizeSlashes fi.Path).data) ∧
      (∃ tree, root = .ok tree ∧
        Reaches (defaultExcludePaths ++ options.ExcludePaths) options.RootPath tree fi.Path) ∧
      (∀ (st : WalkState) (path name : String) (readErr : Option String)
          (children : List FsNode),
        shouldExclude (defaultExcludePaths ++ options.ExcludePaths) path true = true →
        walkDir (scanWalkFn clock options (defaultExcludePaths ++ options.ExcludePaths)) path
          (.dir name readErr children) st = (st, none)) := by
  obtain ⟨tree, rfl, hmem⟩ := Scan_files_mem clock options root r hr fi hfi
  obtain ⟨p, name, info, access, hx, hc, hreach⟩ :=
    collectNode_mem options _ options.RootPath tree fi hmem
  have hp : fi.Path = p := (classifyFile_some options p name info access fi hc).1
  refine ⟨?_, ⟨tree, rfl, ?_⟩, ?_⟩
  · rw [hp]
    exact shouldExclude_false_substrings _ p false hx
  · rw [hp]; exact hreach
  · intro st path name readErr children hex
    simp [walkDir, scanWalkFn, FsNode.isDir, hex]

theorem Scan_excluded_paths_absent_witness :
    (Scan (fun _ => 0) prunedOptions (.ok prunedTree)).result = some prunedResult ∧
    prunedFile ∈ prunedResult.Files ∧
    ((∀ e ∈ defaultExcludePaths ++ prunedOptions.ExcludePaths,
        ¬ e.data <:+: (normalizeSlashes prunedFile.Path).data) ∧
      (∃ tree, (Except.ok prunedTree : Except String FsNode) = .ok tree ∧
        Reaches (defaultExcludePaths ++ prunedOptions.ExcludePaths) prunedOptions.RootPath tree
          prunedFile.Path) ∧
      (∀ (st : WalkState) (path name : String) (readErr : Option String)
          (children : List FsNode),
        shouldExclude (defaultExcludePaths ++ prunedOptions.ExcludePaths) path true = true →
        walkDir (scanWalkFn (fun _ => 0) prunedOptions
          (defaultExcludePaths ++ prunedOptions.ExcludePaths)) path
          (.dir name readErr children) st = (st, none))) :=
  ⟨by decide, by decide,
    Scan_excluded_paths_absent (fun _ => 0) prunedOptions (.ok prunedTree) prunedResult
      (by decide) prunedFile (by decide)⟩

/-- C8: for every `FileInfo` of a scan result, `Extension` is the lowercased extension of
`Path` and a key of the extension table, `FileType` is the table's category for it, and when
`IncludeTypes` is non-empty `FileType` is one of its members; so a file whose lowercased
extension is not a key never appears. -/
theorem Scan_fileType_from_table (clock : Nat → Int) (options : ScanOptions)
    (root : Except String FsNode) (r : ScanResult)
    (hr : (Scan clock options root).result = some r) (fi : FileInfo) (hfi : fi ∈ r.Files) :
    fi.Extension = stringsToLower (filepathExt fi.Path) ∧
      fi.Extension ∈ extensionTable.map Prod.fst ∧
      extensionMap fi.Extension = some fi.FileType ∧
      (options.IncludeTypes ≠ [] → fi.FileType ∈ options.IncludeTypes) ∧
      extensionMap (stringsToLower (filepathExt fi.Path)) ≠ none := by
  obtain ⟨tree, rfl, hmem⟩ := Scan_files_mem clock options root r hr fi hfi
  obtain ⟨p, name, info, access, _, hc, _⟩ :=
    collectNode_mem options _ options.RootPath tree fi hmem
  obtain ⟨hp, hext, hmap, hinc⟩ := classifyFile_some options p name info access fi hc
  have hkey : fi.Extension ∈ extensionTable.map Prod.fst := by
    unfold extensionMap at hmap
    obtain ⟨l₁, l₂, hl, _⟩ := List.lookup_eq_some_iff.mp hmap
    have hin : (fi.Extension, fi.FileType) ∈ extensionTable := by
      rw [hl]; simp
    exact List.mem_map_of_mem Prod.fst hin
  refine ⟨by rw [hp]; exact hext, hkey, hmap, hinc, ?_⟩
  rw [hp, ← hext, hmap]
  simp

theorem Scan_fileType_from_table_witness :
    (Scan (fun _ => 0) prunedOptions (.ok prunedTree)).result = some prunedResult ∧
    prunedFile ∈ prunedResult.Files ∧
    (prunedFile.Extension = stringsToLower (filepathExt prunedFile.Path) ∧
      prunedFile.Extension ∈ extensionTable.map Prod.fst ∧
      extensionMap prunedFile.Extension = some prunedFile.FileType ∧
      (prunedOptions.IncludeTypes ≠ [] → prunedFile.FileType ∈ prunedOptions.IncludeTypes) ∧
      extensionMap (stringsToLower (filepathExt prunedFile.Path)) ≠ none) :=
  ⟨by decide, by decide,
    Scan_fileType_from_table (fun _ => 0) prunedOptions (.ok prunedTree) prunedResult
      (by decide) prunedFile (by decide)⟩

/-- C9: the system-directory rule of `shouldExclude` fires whenever the parent path has at most
three bytes. The directory `/ab/Windows`, whose parent `/ab` is not a drive root, is pruned, and
so is `Windows` below the relative root `.`; the same directory below `/home` is kept. A file
is never pruned by the rule: for a file only the substring list decides. -/
theorem shouldExclude_short_parent_pruned :
    filepathBase "/ab/Windows" = "Windows" ∧ filepathDir "/ab/Windows" = "/ab" ∧
      shouldExclude defaultExcludePaths "/ab/Windows" true = true ∧
      (filepathJoin "." "Windows" = "Windows" ∧ filepathDir "Windows" = "." ∧
        shouldExclude defaultExcludePaths "Windows" true = true) ∧
      shouldExclude defaultExcludePaths "/home/Windows" true = false ∧
      (∃ r, (Scan (fun _ => 0) (plainOptions "/ab") (.ok userWindowsTree)).result = some r ∧
        r.Files = []) ∧
      (∃ r, (Scan (fun _ => 0) (plainOptions "/home") (.ok userWindowsTree)).result = some r ∧
        r.Files.map (fun f => f.Path) = ["/home/Windows/report.pdf"]) ∧
      (∀ (ex : List String) (path : String),
        shouldExclude ex path false =
          ex.any (fun e => stringsContains (normalizeSlashes path) e)) := by
  refine ⟨by decide, by decide, by decide, by decide, by decide, ⟨_, rfl, by decide⟩,
    ⟨_, rfl, by decide⟩, ?_⟩
  intro ex path
  cases h : ex.any (fun e => stringsContains (normalizeSlashes path) e) with
  | true => simp only [shouldExclude, h, if_true]
  | false => simp only [shouldExclude, h, Bool.false_eq_true, if_false]

/-- C10: `Scan` on a root whose `os.Lstat` fails returns an empty `ScanResult` and a nil error:
the walk function answers the root error with nil, so `filepath.WalkDir` returns nil, and the
branch `return nil, err` is never taken, whatever the root. -/
theorem Scan_missing_root_returns_empty (clock : Nat → Int) (options : ScanOptions)
    (err : String) (root : Except String FsNode) :
    (Scan clock options (.error err)).err = none ∧
      (Scan clock options (.error err)).result =
        some { Files := [], TotalCount := 0, ValidCount := 0, InvalidCount := 0 } ∧
      (Scan clock options root).err = none ∧ (Scan clock options root).result ≠ none := by
  refine ⟨(Scan_lstat_error clock options err).1, (Scan_lstat_error clock options err).2, ?_, ?_⟩
  · cases root with
    | error e => exact (Scan_lstat_error clock options e).1
    | ok tree => exact (Scan_ok clock options tree).1
  · cases root with
    | error e => rw [(Scan_lstat_error clock options e).2]; simp
    | ok tree => rw [(Scan_ok clock options tree).2]; simp

/-! ## OOXML branch, scan progress and exporter: lemmas and theorems -/

theorem validateOOXML_valid_iff (content : List Nat) (fileType : String)
    (hty : fileType = "word" ∨ fileType = "excel" ∨ fileType = "ppt")
    (hpk : bytesContains (content.take 8192) (asciiBytes "PK") = true) :
    (validateOOXML content content.length fileType = (true, "") ∨
      validateOOXML content content.length fileType = (false, "Office文件内容异常")) ∧
    ((validateOOXML content content.length fileType).1 = true ↔
      (asciiBytes "[Content_Types].xml" <:+: content.take 8192 ∨
        ∃ m ∈ categoryMarkers fileType, m <:+: content.take 8192)) := by
  simp only [validateOOXML, readAt_sample, hpk, ← bytesContains_iff]
  generalize bytesContains (content.take 8192) (asciiBytes "[Content_Types].xml") = ct
  rcases hty with h | h | h <;> subst h
  · generalize ha : bytesContains (content.take 8192) (asciiBytes "word/") = a
    generalize hb : bytesContains (content.take 8192) (asciiBytes "document.xml") = b
    cases ct <;> cases a <;> cases b <;> simp [categoryMarkers, ha, hb]
  · generalize ha : bytesContains (content.take 8192) (asciiBytes "xl/") = a
    generalize hb : bytesContains (content.take 8192) (asciiBytes "workbook.xml") = b
    generalize hc : bytesContains (content.take 8192) (asciiBytes "sheet") = c
    cases ct <;> cases a <;> cases b <;> cases c <;> simp [categoryMarkers, ha, hb, hc]
  · generalize ha : bytesContains (content.take 8192) (asciiBytes "ppt/") = a
    generalize hb : bytesContains (content.take 8192) (asciiBytes "presentation.xml") = b
    generalize hc : bytesContains (content.take 8192) (asciiBytes "slide") = c
    cases ct <;> cases a <;> cases b <;> cases c <;> simp [categoryMarkers, ha, hb, hc]

/-- C14: a file that starts with the zip signature, declared `word`, `excel` or `ppt`, always
has `PK` in the sample that `validateOOXML` re-reads, so `ValidateFile` never answers with
`Office文件结构异常`: every rejection carries `Office文件内容异常`, and the file is accepted exactly
when its first 8192 bytes contain `[Content_Types].xml` or a marker of the declared category. -/
theorem ValidateFile_zip_structure_branch_dead (content : List Nat) (fileType : String)
    (hty : fileType = "word" ∨ fileType = "excel" ∨ fileType = "ppt")
    (hsig : zipMagic <+: content) :
    asciiBytes "PK" <:+: content.take 8192 ∧
      (ValidateFile (.readable content) fileType).2 ≠ "Office文件结构异常" ∧
      ((ValidateFile (.readable content) fileType).1 = false →
        (ValidateFile (.readable content) fileType).2 = "Office文件内容异常") ∧
      ((ValidateFile (.readable content) fileType).1 = true ↔
        (asciiBytes "[Content_Types].xml" <:+: content.take 8192 ∨
          ∃ m ∈ categoryMarkers fileType, m <:+: content.take 8192)) := by
  have hpk := zip_sample_contains_PK content hsig
  have h := validateOOXML_valid_iff content fileType hty hpk
  rw [ValidateFile_zip_eq content fileType hty hsig]
  refine ⟨(bytesContains_iff _ _).1 hpk, ?_, ?_, h.2⟩
  · rcases h.1 with h1 | h1 <;> rw [h1] <;> decide
  · rcases h.1 with h1 | h1 <;> rw [h1] <;> simp

theorem ValidateFile_zip_structure_branch_dead_witness :
    ("ppt" = "word" ∨ "ppt" = "excel" ∨ "ppt" = "ppt") ∧
    zipMagic <+: zipMagic ++ asciiBytes "ppt/slides/slide1.xml" ∧
    (asciiBytes "PK" <:+: (zipMagic ++ asciiBytes "ppt/slides/slide1.xml").take 8192 ∧
      (ValidateFile (.readable (zipMagic ++ asciiBytes "ppt/slides/slide1.xml")) "ppt").2 ≠
        "Office文件结构异常" ∧
      ((ValidateFile (.readable (zipMagic ++ asciiBytes "ppt/slides/slide1.xml")) "ppt").1 =
          false →
        (ValidateFile (.readable (zipMagic ++ asciiBytes "ppt/slides/slide1.xml")) "ppt").2 =
          "Office文件内容异常") ∧
      ((ValidateFile (.readable (zipMagic ++ asciiBytes "ppt/slides/slide1.xml")) "ppt").1 =
          true ↔
        (asciiBytes "[Content_Types].xml" <:+:
            (zipMagic ++ asciiBytes "ppt/slides/slide1.xml").take 8192 ∨
          ∃ m ∈ categoryMarkers "ppt",
            m <:+: (zipMagic ++ asciiBytes "ppt/slides/slide1.xml").take 8192))) :=
  ⟨by decide, ⟨_, rfl⟩,
    ValidateFile_zip_structure_branch_dead (zipMagic ++ asciiBytes "ppt/slides/slide1.xml")
      "ppt" (by decide) ⟨_, rfl⟩⟩

mutual
theorem walkDir_preserves {σ : Type} (fn : σ → String → Visit → σ × Option WalkErr)
    (P : σ → Prop) (hfn : ∀ st path v, P st → P (fn st path v).1) :
    ∀ (path : String) (n : FsNode) (st : σ), P st → P (walkDir fn path n st).1
  | path, .file name info access, st, h => by
    rw [walkDir]
    exact hfn st path _ h
  | path, .dir name readErr children, st, h => by
    have h1 := hfn st path (.entry (.dir name readErr children)) h
    rw [walkDir]
    rcases hr : fn st path (.entry (.dir name readErr children)) with ⟨st1, e⟩
    rw [hr] at h1
    cases e with
    | some e => simp only; split <;> exact h1
    | none =>
      cases readErr with
      | none => exact walkEntries_preserves fn P hfn path children st1 h1
      | some err =>
        have h2 := hfn st1 path (.readDirErr (.dir name (some err) children) err) h1
        simp only
        rcases hr2 : fn st1 path (.readDirErr (.dir name (some err) children) err) with ⟨st2, e2⟩
        rw [hr2] at h2
        cases e2 with
        | some e2 => simp only; split <;> exact h2
        | none => exact walkEntries_preserves fn P hfn path children st2 h2
theorem walkEntries_preserves {σ : Type} (fn : σ → String → Visit → σ × Option WalkErr)
    (P : σ → Prop) (hfn : ∀ st path v, P st → P (fn st path v).1) :
    ∀ (path : String) (l : List FsNode) (st : σ), P st → P (walkEntries fn path l st).1
  | path, [], st, h => by rw [walkEntries]; exact h
  | path, d1 :: rest, st, h => by
    have h1 := walkDir_preserves fn P hfn (filepathJoin path d1.name) d1 st h
    rw [walkEntries]
    rcases hr : walkDir fn (filepathJoin path d1.name) d1 st with ⟨st1, e⟩
    rw [hr] at h1
    cases e with
    | some e => simp only; split <;> exact h1
    | none => exact walkEntries_preserves fn P hfn path rest st1 h1
end

theorem WalkDir_preserves {σ : Type} (fn : σ → String → Visit → σ × Option WalkErr)
    (P : σ → Prop) (hfn : ∀ st path v, P st → P (fn st path v).1)
    (rootPath : String) (root : Except String FsNode) (st : σ) (h : P st) :
    P (WalkDir fn rootPath root st).1 := by
  unfold WalkDir
  cases root with
  | error err =>
    have := hfn st rootPath (.lstatErr err) h
    simp only
    split <;> exact this
  | ok d =>
    have := walkDir_preserves fn P hfn rootPath d st h
    simp only
    split <;> exact this

theorem throttledUpdate_inv (clock : Nat → Int) (p0 : ScanProgress) (st : WalkState)
    (p : ScanProgress) (hlen : st.foundFiles = st.files.length)
    (hhead : ∃ mid, st.emitted = p0 :: mid)
    (hall : ∀ q ∈ st.emitted,
      q.IsScanning = true ∧ q.ScannedDirs ≤ st.scannedDirs ∧ q.FoundFiles ≤ st.foundFiles)
    (hpair : st.emitted.Pairwise ScanProgress.le)
    (hp : p.IsScanning = true ∧ p.ScannedDirs = st.scannedDirs ∧ p.FoundFiles = st.foundFiles) :
    ProgressInv p0 (throttledUpdate clock st p) := by
  unfold throttledUpdate
  split
  · refine ⟨hlen, ?_, ?_, ?_⟩
    · obtain ⟨mid, hmid⟩ := hhead
      exact ⟨mid ++ [p], by simp [hmid]⟩
    · intro q hq
      simp only [List.mem_append, List.mem_singleton] at hq
      rcases hq with hq | rfl
      · exact hall q hq
      · exact ⟨hp.1, le_of_eq hp.2.1, le_of_eq hp.2.2⟩
    · simp only [List.pairwise_append, List.pairwise_singleton, List.mem_singleton, true_and]
      refine ⟨hpair, ?_⟩
      intro a ha b hb
      subst hb
      have := hall a ha
      exact ⟨by rw [hp.2.1]; exact this.2.1, by rw [hp.2.2]; exact this.2.2⟩
  · exact ⟨hlen, hhead, hall, hpair⟩

theorem scanWalkFn_inv (clock : Nat → Int) (options : ScanOptions) (ex : List String)
    (p0 : ScanProgress) (st : WalkState) (path : String) (v : Visit)
    (h : ProgressInv p0 st) : ProgressInv p0 (scanWalkFn clock options ex st path v).1 := by
  obtain ⟨hlen, hhead, hall, hpair⟩ := h
  cases v with
  | lstatErr err => exact ⟨hlen, hhead, hall, hpair⟩
  | readDirErr d err =>
    simp only [scanWalkFn]
    split <;> exact ⟨hlen, hhead, hall, hpair⟩
  | entry d =>
    simp only [scanWalkFn]
    split
    · split <;> exact ⟨hlen, hhead, hall, hpair⟩
    · cases d with
      | dir name readErr children =>
        simp only
        apply throttledUpdate_inv
        · exact hlen
        · exact hhead
        · intro q hq
          have := hall q hq
          exact ⟨this.1, Nat.le_succ_of_le this.2.1, this.2.2⟩
        · exact hpair
        · exact ⟨rfl, rfl, rfl⟩
      | file name info access =>
        simp only
        cases hc : classifyFile options path name info access with
        | none => exact ⟨hlen, hhead, hall, hpair⟩
        | some fi =>
          simp only
          apply throttledUpdate_inv
          · simp [hlen]
          · exact hhead
          · intro q hq
            have := hall q hq
            exact ⟨this.1, this.2.1, Nat.le_succ_of_le this.2.2⟩
          · exact hpair
          · exact ⟨rfl, rfl, rfl⟩

theorem WalkDir_scan_err_none (clock : Nat → Int) (options : ScanOptions) (ex : List String)
    (root : Except String FsNode) (st : WalkState) :
    (WalkDir (scanWalkFn clock options ex) options.RootPath root st).2 = none := by
  cases root with
  | error err => simp [WalkDir, scanWalkFn]
  | ok tree => exact (WalkDir_scan_ok clock options ex tree st).1

theorem Scan_final_state (clock : Nat → Int) (options : ScanOptions)
    (root : Except String FsNode) :
    ∃ st : WalkState,
      ProgressInv { CurrentPath := options.RootPath, ScannedDirs := 0, FoundFiles := 0,
                    CurrentFile := "", IsScanning := true } st ∧
      (Scan clock options root).progress = st.emitted ++
        [{ CurrentPath := options.RootPath, ScannedDirs := st.scannedDirs,
           FoundFiles := st.foundFiles, CurrentFile := "", IsScanning := false }] ∧
      (Scan clock options root).result =
        some { Files := st.files, TotalCount := st.files.length,
               ValidCount := (countValid st.files).1, InvalidCount := (countValid st.files).2 } := by
  have hinv := WalkDir_preserves
    (scanWalkFn clock options (defaultExcludePaths ++ options.ExcludePaths))
    (ProgressInv { CurrentPath := options.RootPath, ScannedDirs := 0, FoundFiles := 0,
                   CurrentFile := "", IsScanning := true })
    (fun st path v h => scanWalkFn_inv clock options _ _ st path v h) options.RootPath root
    { files := [], scannedDirs := 0, foundFiles := 0, lastUpdateTime := clock 1, clockReads := 2,
      emitted := [{ CurrentPath := options.RootPath, ScannedDirs := 0, FoundFiles := 0,
                    CurrentFile := "", IsScanning := true }] }
    ⟨rfl, ⟨[], rfl⟩, by simp, by simp⟩
  have herr := WalkDir_scan_err_none clock options
    (defaultExcludePaths ++ options.ExcludePaths) root
    { files := [], scannedDirs := 0, foundFiles := 0, lastUpdateTime := clock 1, clockReads := 2,
      emitted := [{ CurrentPath := options.RootPath, ScannedDirs := 0, FoundFiles := 0,
                    CurrentFile := "", IsScanning := true }] }
  exact ⟨_, hinv, by simp only [Scan, herr], by simp only [Scan, herr]⟩

/-- C11: for every scan and every clock, the snapshots handed to the progress sink are an
initial snapshot with `IsScanning = true` and both counters zero, then snapshots that all have
`IsScanning = true`, then one final snapshot with `IsScanning = false`; along the whole
sequence neither `ScannedDirs` nor `FoundFiles` decreases; and the final snapshot's
`FoundFiles` is the `TotalCount` of the result. -/
theorem Scan_progress_sequence (clock : Nat → Int) (options : ScanOptions)
    (root : Except String FsNode) :
    ∃ (first last : ScanProgress) (mid : List ScanProgress),
      (Scan clock options root).progress = first :: (mid ++ [last]) ∧
      first.IsScanning = true ∧ first.ScannedDirs = 0 ∧ first.FoundFiles = 0 ∧
      (∀ p ∈ mid, p.IsScanning = true) ∧
      last.IsScanning = false ∧
      (first :: (mid ++ [last])).Pairwise ScanProgress.le ∧
      (∃ r, (Scan clock options root).result = some r ∧ last.FoundFiles = r.TotalCount) := by
  obtain ⟨st, ⟨hlen, ⟨mid, hmid⟩, hall, hpair⟩, hprog, hres⟩ :=
    Scan_final_state clock options root
  refine ⟨{ CurrentPath := options.RootPath, ScannedDirs := 0, FoundFiles := 0,
            CurrentFile := "", IsScanning := true },
          { CurrentPath := options.RootPath, ScannedDirs := st.scannedDirs,
            FoundFiles := st.foundFiles, CurrentFile := "", IsScanning := false },
          mid, ?_, rfl, rfl, rfl, ?_, rfl, ?_, ?_⟩
  · rw [hprog, hmid]
    rfl
  · intro p hp
    exact (hall p (by rw [hmid]; exact List.mem_cons_of_mem _ hp)).1
  · rw [← List.cons_append, ← hmid, List.pairwise_append]
    refine ⟨hpair, List.pairwise_singleton _ _, ?_⟩
    intro a ha b hb
    rw [List.mem_singleton] at hb
    subst hb
    exact ⟨(hall a ha).2.1, (hall a ha).2.2⟩
  · exact ⟨_, hres, hlen⟩

theorem addFileToZip_fails (env : ZipAddEnv) (entries : List String) (zipEntryPath : String) :
    (addFileToZip env entries zipEntryPath).1.isSome = addFails env := by
  unfold addFileToZip addFails
  cases env.openErr <;> cases env.statErr <;> cases env.headerErr <;> cases env.createErr <;>
    cases env.copyErr <;> rfl

theorem zipLoop_result (drives : DriveEnv) (addEnv : Nat → ZipAddEnv) (options : ExportOptions)
    (total : Nat) :
    ∀ (files : List FileInfo) (i : Nat) (st : ZipLoopState),
      (zipLoop drives addEnv options total i files st).result.FailedFiles =
          st.result.FailedFiles ++ failedPaths addEnv (files.enumFrom i) ∧
        (zipLoop drives addEnv options total i files st).result.Failed =
          st.result.Failed + (failedPaths addEnv (files.enumFrom i)).length ∧
        (zipLoop drives addEnv options total i files st).result.Success +
            (failedPaths addEnv (files.enumFrom i)).length =
          st.result.Success + files.length ∧
        (zipLoop drives addEnv options total i files st).result.SkippedFiles =
          st.result.SkippedFiles := by
  intro files
  induction files with
  | nil => intro i st; simp [zipLoop, failedPaths]
  | cons file rest ih =>
    intro i st
    rw [zipLoop]
    dsimp only
    have hf := addFileToZip_fails (addEnv i) st.entries
      (if options.KeepStructure = true then
        stringsTrimPrefix (stripDrive file.Path (GetDrives drives)) "/" else file.Name)
    cases hr : (addFileToZip (addEnv i) st.entries
      (if options.KeepStructure = true then
        stringsTrimPrefix (stripDrive file.Path (GetDrives drives)) "/" else file.Name)).1 with
    | none =>
      rw [hr] at hf
      have hf2 : addFails (addEnv i) = false := by simpa using hf.symm
      obtain ⟨h1, h2, h3, h4⟩ := ih (i + 1) _
      rw [h1, h2, h4]
      simp only [List.enumFrom_cons, failedPaths, List.filter_cons, hf2, Bool.false_eq_true,
        if_false, List.length_cons] at h3 ⊢
      refine ⟨trivial, trivial, ?_, trivial⟩
      omega
    | some err =>
      rw [hr] at hf
      have hf2 : addFails (addEnv i) = true := by simpa using hf.symm
      obtain ⟨h1, h2, h3, h4⟩ := ih (i + 1) _
      rw [h1, h2, h4]
      simp only [List.enumFrom_cons, failedPaths, List.filter_cons, hf2, if_true, List.map_cons,
        List.length_cons, List.append_assoc, List.singleton_append] at h3 ⊢
      refine ⟨trivial, ?_, ?_, trivial⟩ <;> omega

/-- C12: when the destination directory and the archive file are created, `ExportAsZip`
returns a result with `Success + Failed = len(Files)`, `FailedFiles` exactly the paths of the
files whose addition failed, in input order, and `Failed = len(FailedFiles)`, whichever
additions fail: every file of the list is processed, after a failing one too. An addition fails
exactly when one of its five calls fails. -/
theorem ExportAsZip_counts (timestamp : String) (drives : DriveEnv) (addEnv : Nat → ZipAddEnv)
    (p0 : ExportProgress) (options : ExportOptions) :
    ∃ r, (ExportAsZip timestamp none none drives addEnv p0 options).result = some r ∧
      (ExportAsZip timestamp none none drives addEnv p0 options).err = none ∧
      r.Success + r.Failed = options.Files.length ∧
      r.FailedFiles = failedPaths addEnv options.Files.enum ∧
      r.Failed = r.FailedFiles.length ∧
      r.Success = (options.Files.enum.filter (fun p => !addFails (addEnv p.1))).length ∧
      (∀ (env : ZipAddEnv) (entries : List String) (zipEntryPath : String),
        (addFileToZip env entries zipEntryPath).1.isSome = addFails env) := by
  obtain ⟨h1, h2, h3, _⟩ := zipLoop_result drives addEnv options options.Files.length
    options.Files 0
    { result := { Success := 0, Failed := 0, FailedFiles := [], SkippedFiles := [] },
      progress := { Total := options.Files.length, Completed := 0, Failed := 0, Current := "",
                    Percent := 0 },
      entries := [] }
  simp only [List.nil_append, Nat.zero_add] at h1 h2 h3
  have hsplit : (options.Files.enum.filter (fun p => !addFails (addEnv p.1))).length +
      (failedPaths addEnv options.Files.enum).length = options.Files.length := by
    have := List.length_eq_length_filter_add (l := options.Files.enum)
      (fun p => addFails (addEnv p.1))
    simp only [failedPaths, List.length_map, List.enum_length] at this ⊢
    omega
  refine ⟨_, rfl, rfl, ?_, ?_, ?_, ?_, addFileToZip_fails⟩
  · rw [h2]; exact h3
  · exact h1
  · rw [h2, h1]
  · have h3' := h3
    simp only [List.enum] at hsplit ⊢
    omega

theorem mem_set_cases {α : Type} (l : List α) (i : Nat) (x y : α) (h : y ∈ l.set i x) :
    y = x ∨ y ∈ l := by
  rcases List.mem_or_eq_of_mem_set h with h | h
  · exact Or.inr h
  · exact Or.inl h

theorem exportStep_skipOnly (env : CopyEnv) (options : ExportOptions) (total : Nat)
    (p0 : ExportProgress) (hov : options.Overwrite = false)
    (hex : ∀ f ∈ options.Files, env.destExists (getDestPath env.drives options f) = true)
    (i : Nat) (sh : ExportShared) (h : SkipOnlyInv options.Files p0 sh) :
    SkipOnlyInv options.Files p0 (exportStep env options total i sh) := by
  obtain ⟨hp, hq, hw⟩ := h
  unfold exportStep
  cases hg : sh.workers.get? i with
  | none => exact ⟨hp, hq, hw⟩
  | some pc =>
    have hmem : pc ∈ sh.workers := List.get?_mem hg
    have hpc := hw pc hmem
    rcases hpc with rfl | rfl | rfl | ⟨f, hf, rfl⟩
    · cases hc : sh.fileChan with
      | nil =>
        simp only
        refine ⟨hp, by simp, ?_⟩
        intro pc hpc
        rcases mem_set_cases _ _ _ _ hpc with rfl | h
        · exact Or.inr (Or.inr (Or.inl rfl))
        · exact hw pc h
      | cons file rest =>
        simp only
        refine ⟨hp, ?_, ?_⟩
        · intro f hf
          exact hq f (by rw [hc]; exact List.mem_cons_of_mem _ hf)
        · intro pc hpc
          rcases mem_set_cases _ _ _ _ hpc with rfl | h
          · exact Or.inr (Or.inr (Or.inr ⟨file, hq file (by rw [hc]; exact List.mem_cons_self _ _),
              rfl⟩))
          · exact hw pc h
    · simp only
      refine ⟨hp, hq, ?_⟩
      intro pc hpc
      rcases mem_set_cases _ _ _ _ hpc with rfl | h
      · exact Or.inl rfl
      · exact hw pc h
    · exact ⟨hp, hq, hw⟩
    · simp only [hov, hex f hf, Bool.not_false, Bool.and_self, if_true]
      refine ⟨hp, hq, ?_⟩
      intro pc hpc
      rcases mem_set_cases _ _ _ _ hpc with rfl | h
      · exact Or.inr (Or.inl rfl)
      · exact hw pc h

theorem Export_all_skipped_progress (env : CopyEnv) (options : ExportOptions)
    (p0 : ExportProgress) (hov : options.Overwrite = false)
    (hex : ∀ f ∈ options.Files, env.destExists (getDestPath env.drives options f) = true)
    (schedule : List Nat) :
    (Export env none p0 options schedule).progress = p0 := by
  have hrun : ∀ (sched : List Nat) (sh : ExportShared), SkipOnlyInv options.Files p0 sh →
      SkipOnlyInv options.Files p0
        (sched.foldl (fun sh i => exportStep env options options.Files.length i sh) sh) := by
    intro sched
    induction sched with
    | nil => intro sh h; exact h
    | cons i rest ih =>
      intro sh h
      exact ih _ (exportStep_skipOnly env options _ p0 hov hex i sh h)
  have h0 : SkipOnlyInv options.Files p0
      { fileChan := options.Files, resultChan := [], completed := 0, failed := 0,
        locked := false, progress := p0, workers := List.replicate 4 .receive } := by
    refine ⟨rfl, fun f hf => hf, ?_⟩
    intro pc hpc
    exact Or.inl (List.eq_of_mem_replicate hpc)
  have h := (hrun schedule _ h0).1
  simp only [Export]
  split <;> exact h

/-- C13: evaluation at the failing input. With `Overwrite = false` and `/out/a.pdf` already
there, `Export` of the single file `a.pdf` leaves the progress of a new exporter at its zero
value under every schedule of the workers, and returns with `a.pdf` counted as a skipped
success. With `b.pdf` copied first and `a.pdf` skipped after it, the progress ends at
`Completed = 1` of `Total = 2`. The skip path adds to `completed` and continues without
writing the progress. -/
theorem Export_skipped_progress_stale (schedule : List Nat) :
    (Export skipEnv none zeroProgress (skipOptions ["a.pdf"]) schedule).progress =
        zeroProgress ∧
      (Export skipEnv none zeroProgress (skipOptions ["a.pdf"]) [0, 0, 0, 0, 1, 2, 3]).returned
        = true ∧
      (Export skipEnv none zeroProgress (skipOptions ["a.pdf"]) [0, 0, 0, 0, 1, 2, 3]).result =
        some { Success := 1, Failed := 0, FailedFiles := [], SkippedFiles := ["/data/a.pdf"] } ∧
      (Export skipEnv none zeroProgress (skipOptions ["b.pdf", "a.pdf"])
        [0, 0, 0, 0, 0, 0, 0, 0, 0, 0, 0, 0, 0, 1, 2, 3]).returned = true ∧
      (Export skipEnv none zeroProgress (skipOptions ["b.pdf", "a.pdf"])
        [0, 0, 0, 0, 0, 0, 0, 0, 0, 0, 0, 0, 0, 1, 2, 3]).result =
        some { Success := 2, Failed := 0, FailedFiles := [], SkippedFiles := ["/data/a.pdf"] } ∧
      (Export skipEnv none zeroProgress (skipOptions ["b.pdf", "a.pdf"])
        [0, 0, 0, 0, 0, 0, 0, 0, 0, 0, 0, 0, 0, 1, 2, 3]).progress.Total = 2 ∧
      (Export skipEnv none zeroProgress (skipOptions ["b.pdf", "a.pdf"])
        [0, 0, 0, 0, 0, 0, 0, 0, 0, 0, 0, 0, 0, 1, 2, 3]).progress.Completed = 1 := by
  refine ⟨?_, by decide, by decide, by decide, by decide, by decide, by decide⟩
  apply Export_all_skipped_progress skipEnv (skipOptions ["a.pdf"]) zeroProgress rfl
  decide


end DocRadar
